import Mathlib

/-!
# MB_Time: time helper class of the ESP Mail Client library

A shallow embedding of `src/libraries/ESP_Mail_Client/src/extras/MB_Time.h`
(the ESP32/ESP8266 build) and the properties proved about it.

Conventions of the embedding

* An `MB_String` is the list of its characters (`List Char`), one `Char` per C `char`.
* C `int`, `time_t` and `size_t` values are `Int`/`Nat` without wrap-around; the 32-bit
  uptime counter `millis()` is reduced modulo `2^32` where the code subtracts it.
* A `float` or `double` value is the rational number it stands for (`ℚ`). The arithmetic of
  `getDateTimeString` on the offset rounds each result as IEEE 754 does, to single precision
  (`fl32`) or to double precision (`fl64`), to nearest with ties to even; the products
  `TZ * 3600` and `DST_MN * 60` handed to `configTime` are taken exactly.
* `MB_String::npos` is `none`.
* An out-of-range `operator[]` on an `MB_VECTOR` is `none` (`Option`).
-/

/-- C `struct tm`, the fields this class reads or writes. -/
structure tm where
  tm_sec : Int
  tm_min : Int
  tm_hour : Int
  tm_mday : Int
  tm_mon : Int
  tm_year : Int
  tm_wday : Int
deriving DecidableEq

/-- The data members of `class MB_Time`. -/
structure MB_Time where
  now : Int
  msec_time_diff : Nat
  timeinfo : tm
  TZ : ℚ
  DST_MN : ℚ
  _clockReady : Bool
  lastSyncMillis : Nat
  _sv1 : List Char
  _sv2 : List Char
  _sv3 : List Char

namespace MB_Time

/-! ## Platform and container primitives -/

/-- C `isspace` in the "C" locale: space, `\t`, `\n`, `\v`, `\f`, `\r`. -/
def isSpace (c : Char) : Bool :=
  c.toNat = 32 || (9 ≤ c.toNat && c.toNat ≤ 13)

/-- C `isdigit`. -/
def isDigit (c : Char) : Bool :=
  48 ≤ c.toNat && c.toNat ≤ 57

/-- Modelled from the spec: `MB_String::trim`, whose source (MB_String.h) is not at hand.
"Each token is trimmed of leading/trailing whitespace". -/
def trim (s : List Char) : List Char :=
  ((s.dropWhile isSpace).reverse.dropWhile isSpace).reverse

/-- `MB_String::find(char, pos)`: the index of the first occurrence of `delim` at or
after `pos`, or `none` for `MB_String::npos`. -/
def find (str : List Char) (delim : Char) (pos : Nat) : Option Nat :=
  let i := (str.drop pos).indexOf delim
  if i < (str.drop pos).length then some (pos + i) else none

/-- `MB_String::substr(pos, len)`. -/
def substr (str : List Char) (pos len : Nat) : List Char :=
  (str.drop pos).take len

/-- `if (s.length() > 0) tk.push_back(s);` -/
def pushToken (tk : List (List Char)) (s : List Char) : List (List Char) :=
  if s.length > 0 then tk ++ [s] else tk

/-- The `while (current != MB_String::npos)` loop of `splitToken` followed by the code after
it. `fuel` bounds the number of iterations; `splitToken` supplies `str.length`, and every
iteration consumes one delimiter. -/
def splitTokenLoop (str : List Char) (delim : Char) :
    Nat → Nat → Option Nat → List (List Char) → List (List Char)
  | _, previous, none, tk =>
      -- s = str.substr(previous, current - previous) with current = npos: the rest
      pushToken tk (trim (str.drop previous))
  | 0, _, some _, tk => tk
  | fuel + 1, previous, some current, tk =>
      let s := trim (substr str previous (current - previous))
      let tk := pushToken tk s
      let previous := current + 1
      splitTokenLoop str delim fuel previous (find str delim previous) tk

/-- `MB_Time::splitToken(str, tk, delim)`: the tokens are appended to `tk`. -/
def splitToken (str : List Char) (tk : List (List Char)) (delim : Char) : List (List Char) :=
  splitTokenLoop str delim str.length 0 (find str delim 0) tk

/-- The digits part of C `atoi`: accumulate while the characters are decimal digits. -/
def atoiDigits : List Char → Int → Int
  | [], acc => acc
  | c :: cs, acc => if isDigit c then atoiDigits cs (acc * 10 + ((c.toNat : Int) - 48)) else acc

/-- C `atoi`: skip leading white space, read an optional sign, then the decimal digits.
The value is not reduced to the range of `int` (C leaves that case undefined). -/
def atoi (s : List Char) : Int :=
  match s.dropWhile isSpace with
  | [] => 0
  | c :: cs =>
    if c = '-' then -(atoiDigits cs 0)
    else if c = '+' then atoiDigits cs 0
    else atoiDigits (c :: cs) 0

/-! ## Calendar conversion -/

/-- Gregorian leap year. -/
def isLeapYear (y : Int) : Bool :=
  y % 4 = 0 && (y % 100 != 0 || y % 400 = 0)

/-- Days from 1970-01-01 to January 1st of year `y`. -/
def daysBeforeYear (y : Int) : Int :=
  365 * (y - 1970) + (y - 1969) / 4 - (y - 1901) / 100 + (y - 1601) / 400

/-- The days of a common year before each of its twelve months. -/
def cumulativeDays : List Int :=
  [0, 31, 59, 90, 120, 151, 181, 212, 243, 273, 304, 334]

/-- Days from January 1st to the first day of month `m` (0 = January, `0 ≤ m < 12`). -/
def daysBeforeMonth (leap : Bool) (m : Int) : Int :=
  cumulativeDays.getD m.toNat 0 + (if leap && 2 ≤ m then 1 else 0)

/-- The platform `mktime`, with the local time zone taken to be UTC: the seconds from
1970-01-01T00:00:00Z to the calendar time in `t`. As in C, a month outside 0..11 carries
into the year, and day, hour, minute and second outside their ranges count linearly. -/
def mktime (t : tm) : Int :=
  let y := t.tm_year + 1900 + t.tm_mon / 12
  let m := t.tm_mon % 12
  let days := daysBeforeYear y + daysBeforeMonth (isLeapYear y) m + (t.tm_mday - 1)
  days * 86400 + t.tm_hour * 3600 + t.tm_min * 60 + t.tm_sec

/-- `MB_Time::getTimestamp(int year, int mon, int date, int hour, int mins, int sec)`.
The source leaves `tm_wday` unset; `mktime` does not read it. -/
def getTimestampYMD (year mon date hour mins sec : Int) : Int :=
  let timeinfo : tm :=
    { tm_year := year - 1900, tm_mon := mon - 1, tm_mday := date,
      tm_hour := hour, tm_min := mins, tm_sec := sec, tm_wday := 0 }
  let ts := mktime timeinfo
  ts

/-! ## Parsing a header date -/

/-- The table `mb_months`. -/
def mb_months : List (List Char) :=
  ["Jan".toList, "Feb".toList, "Mar".toList, "Apr".toList, "May".toList, "Jun".toList,
   "Jul".toList, "Aug".toList, "Sep".toList, "Oct".toList, "Nov".toList, "Dec".toList]

/-- The table `mb_sdow`. -/
def mb_sdow : List (List Char) :=
  ["Sun".toList, "Mon".toList, "Tue".toList, "Wed".toList, "Thu".toList, "Fri".toList,
   "Sat".toList]

/-- `tk[i]` for an `int` index: `none` when `i` is outside the vector. -/
def tokenAt (tk : List (List Char)) (i : Int) : Option (List Char) :=
  if 0 ≤ i then tk[i.toNat]? else none

/-- The loop `for (i = 0; i < 12; i++) if (strcmp_P(mb_months[i], tok) == 0) mon = i;`
started with `mon = 0`. -/
def monthIndex (tok : List Char) : Int :=
  (List.range 12).foldl (fun mon i => if mb_months.getD i [] = tok then (i : Int) else mon) 0

/-- The block `if (tk[tkindex + 5].length() == 5 && gmt) { ... }`: the timestamp after the
time zone adjustment. -/
def adjustTimeZone (ts : Int) (tz : List Char) (gmt : Bool) : Int :=
  if tz.length = 5 && gmt then
    -- strncpy(tmp, tz.c_str() + 1, 2); tz_h = atoi(tmp);
    let tz_h := atoi ((tz.drop 1).take 2)
    -- strncpy(tmp, tz.c_str() + 3, 2); tz_m = atoi(tmp);
    let tz_m := atoi ((tz.drop 3).take 2)
    let tzs := tz_h * 60 * 60 + tz_m * 60
    if tz.head? = some '+' then ts - tzs else ts + tzs
  else ts

/-- `MB_Time::getTimestamp(const char *timeString, bool gmt)`. The result is `none` when
an `operator[]` of the source would read outside its vector. -/
def getTimestamp (timeString : List Char) (gmt : Bool) : Option Int :=
  let tk := splitToken timeString [] ' '
  let tkindex : Int := if tk.length = 5 then -1 else 0
  if tk.length ≥ 5 then do
    let day := atoi (← tokenAt tk (tkindex + 1))
    let mon := monthIndex (← tokenAt tk (tkindex + 2))
    -- RFC 822 year to RFC 2822
    let y ← tokenAt tk (tkindex + 3)
    let tk := if y.length = 2 then tk.set (tkindex + 3).toNat ("20".toList ++ y) else tk
    let year := atoi (← tokenAt tk (tkindex + 3))
    let tk2 := splitToken (← tokenAt tk (tkindex + 4)) [] ':'
    let hms ← if tk2.length = 3 then do
        let hr := atoi (← tokenAt tk2 0)
        let mins := atoi (← tokenAt tk2 1)
        let sec := atoi (← tokenAt tk2 2)
        pure (hr, mins, sec)
      else pure ((0 : Int), (0 : Int), (0 : Int))
    let ts := getTimestampYMD year (mon + 1) day hms.1 hms.2.1 hms.2.2
    let tz ← tokenAt tk (tkindex + 5)
    pure (adjustTimeZone ts tz gmt)
  else some 0

/-! ## The clock -/

/-- `#define ESP_TIME_DEFAULT_TS 1577836800`. -/
def ESP_TIME_DEFAULT_TS : Int := 1577836800

/-- The object after construction: the member initialisers of the class. `now` and
`timeinfo` have none, so their first values are arbitrary. -/
def init (now : Int) (timeinfo : tm) : MB_Time :=
  { now := now, msec_time_diff := 0, timeinfo := timeinfo, TZ := 0, DST_MN := 0,
    _clockReady := false, lastSyncMillis := 0, _sv1 := [], _sv2 := [], _sv3 := [] }

/-- Conversion of a `float` to an integer type: the fraction is discarded. -/
def truncate (x : ℚ) : Int :=
  if 0 ≤ x then Int.floor x else Int.ceil x

/-- What the platform answers during one call of `setClock`, in the order of the reads. -/
structure Readings where
  /-- `time(nullptr)` on entry. -/
  time : Int
  /-- `millis()` in the condition of the sync gate. -/
  millisGate : Nat
  /-- `millis()` stored in `lastSyncMillis`. -/
  millisSync : Nat
  /-- `time(nullptr)` after `configTime`. -/
  timeAfterSync : Int
  /-- `millis()` subtracted for `msec_time_diff`. -/
  millisDiff : Nat
  /-- The break-down written by `getLocalTime` or `localtime_r`. -/
  localTime : tm

/-- One call of the platform sync primitive `configTime`. -/
structure ConfigTime where
  gmtOffset_sec : Int
  daylightOffset_sec : Int
  servers : List (List Char)
deriving DecidableEq

/-- The default value of the parameter `servers` of `setClock`. -/
def defaultServers : List Char := "pool.ntp.org,time.nist.gov".toList

/-- The condition of the sync gate in `setClock`:
`(millis() - lastSyncMillis > 5000 || lastSyncMillis == 0) && (now < ESP_TIME_DEFAULT_TS || newConfig)`,
the subtraction being one of 32-bit `unsigned long`. -/
def syncDue (self : MB_Time) (millis : Nat) (newConfig : Bool) : Bool :=
  (decide (((millis : Int) - (self.lastSyncMillis : Int)) % 4294967296 > 5000)
      || decide (self.lastSyncMillis = 0))
    && (decide (self.now < ESP_TIME_DEFAULT_TS) || newConfig)

/-- The `switch (tk.size())` of `setClock`: the server members after it and the call of
`configTime` it makes. -/
def dispatchServers (self : MB_Time) (tk : List (List Char)) : MB_Time × ConfigTime :=
  let gmt := truncate (self.TZ * 3600)
  let dst := truncate (self.DST_MN * 60)
  match tk with
  | [a] =>
    ({ self with _sv1 := a }, ⟨gmt, dst, [a]⟩)
  | [a, b] =>
    ({ self with _sv1 := a, _sv2 := b }, ⟨gmt, dst, [a, b]⟩)
  | [a, b, c] =>
    ({ self with _sv1 := a, _sv2 := b, _sv3 := c }, ⟨gmt, dst, [a, b, c]⟩)
  | _ =>
    (self, ⟨gmt, dst, ["pool.ntp.org".toList, "time.nist.gov".toList]⟩)

/-- `_sv1.clear(); _sv2.clear(); _sv3.clear();` -/
def clearServers (self : MB_Time) : MB_Time :=
  { self with _sv1 := [], _sv2 := [], _sv3 := [] }

/-- `MB_Time::setClock(gmtOffset, daylightOffset, servers)` in the ESP32/ESP8266 build.
Returns the object after the call, the `configTime` call made (if any) and the result. -/
def setClock (self : MB_Time) (env : Readings) (gmtOffset daylightOffset : ℚ)
    (servers : List Char) : MB_Time × Option ConfigTime × Bool :=
  let self := { self with TZ := gmtOffset, DST_MN := daylightOffset, now := env.time }
  let newConfig := decide (self.TZ ≠ gmtOffset) || decide (self.DST_MN ≠ daylightOffset)
  let synced : MB_Time × Option ConfigTime :=
    if syncDue self env.millisGate newConfig then
      let self := { self with lastSyncMillis := env.millisSync % 4294967296 }
      let tk := splitToken servers [] ','
      let d := dispatchServers self tk
      let self := { d.1 with now := env.timeAfterSync }
      let self := { self with
        msec_time_diff := ((self.now * 1000 - (env.millisDiff : Int)) % 18446744073709551616).toNat }
      (self, some d.2)
    else (self, none)
  let self := { synced.1 with timeinfo := env.localTime }
  let self := { self with _clockReady := decide (self.now > ESP_TIME_DEFAULT_TS) }
  let self := if self._clockReady then clearServers self else self
  (self, synced.2, self._clockReady)

/-- `MB_Time::clockReady()` in the ESP32/ESP8266 build (`__arm__` is not defined there);
`time` is the answer of `time(nullptr)`. -/
def clockReady (self : MB_Time) (time : Int) : MB_Time × Bool :=
  let self := { self with now := time }
  let self := { self with _clockReady := decide (self.now > ESP_TIME_DEFAULT_TS) }
  let self := if self._clockReady then clearServers self else self
  (self, self._clockReady)

/-- `MB_Time::getTime()` in the ESP32/ESP8266 build. -/
def getTime (self : MB_Time) (time : Int) (localTime : tm) : MB_Time :=
  { self with now := time, timeinfo := localTime }

/-- `MB_Time::getCurrentTimestamp()`; the result is the `uint64_t` conversion of `now`. -/
def getCurrentTimestamp (self : MB_Time) (time : Int) (localTime : tm) : MB_Time × Nat :=
  let self := getTime self time localTime
  (self, (self.now % 18446744073709551616).toNat)

/-! ## Formatting a header date -/

/-- The character of a decimal digit `d < 10`. -/
def digitChar (d : Nat) : Char :=
  Char.ofNat (48 + d)

/-- The decimal digits of `n`, most significant first, put in front of `acc`. -/
def decimalAux : Nat → Nat → List Char → List Char
  | 0, _, acc => acc
  | fuel + 1, n, acc =>
    if n / 10 = 0 then digitChar (n % 10) :: acc
    else decimalAux fuel (n / 10) (digitChar (n % 10) :: acc)

/-- Modelled from the spec: `MB_String::operator+=(int)`, whose source (MB_String.h) is not
at hand, appends the decimal text of the number, as the fields "<D>", "<YYYY>", "<HH>" of
the produced string require; a negative number gets a leading `-`. -/
def intText (n : Int) : List Char :=
  if n < 0 then '-' :: decimalAux (n.natAbs + 1) n.natAbs []
  else decimalAux (n.natAbs + 1) n.natAbs []

/-- The integer nearest to `q`, the even one of the two when `q` lies half way: the rounding
of IEEE 754 arithmetic. -/
def roundEven (q : ℚ) : Int :=
  let f := Int.floor q
  if q - f < 1 / 2 then f
  else if 1 / 2 < q - f then f + 1
  else if f % 2 = 0 then f else f + 1

/-- The number of a binary floating-point format nearest to `x` (ties to even), for a format
with `prec` significand bits and least normal exponent `emin`: `x` is rounded to a multiple
of the spacing `2 ^ (e - (prec - 1))` of its binade `2 ^ e ≤ |x| < 2 ^ (e + 1)`, and to the
spacing of the subnormal numbers below `2 ^ emin`. Overflow to infinity is not modelled. -/
def roundFloat (prec : Nat) (emin : Int) (x : ℚ) : ℚ :=
  let e := max (Int.log 2 |x|) emin
  let ulp : ℚ := 2 ^ (e - ((prec : Int) - 1))
  roundEven (x / ulp) * ulp

/-- The result of an operation on `float`, or of a conversion to `float`, whose exact value
is `x`: IEEE 754 single precision. -/
def fl32 (x : ℚ) : ℚ :=
  roundFloat 24 (-126) x

/-- The result of an operation on `double` whose exact value is `x`: IEEE 754 double
precision. -/
def fl64 (x : ℚ) : ℚ :=
  roundFloat 53 (-1022) x

/-- The time zone part of `getDateTimeString`, from `int p = 1;` to the end: the text
appended after the seconds. In
`float dif = (p * (TZ * 10 - (int)TZ * 10)) * 60.0 / 10;` the product `TZ * 10`, the
conversion of the `int` product `(int)TZ * 10`, the subtraction and the product with `p`
are `float` operations, `* 60.0` and `/ 10` are `double` operations, and the result is
converted to `float`. -/
def timeZoneText (TZ : ℚ) : List Char :=
  let p : Int := if TZ < 0 then -1 else 1
  let dif : ℚ :=
    fl32 (fl64 (fl64 (fl32 (p * fl32 (fl32 (TZ * 10) - fl32 ((truncate TZ * 10 : Int)))) * 60)
      / 10))
  [' '] ++ [if TZ < 0 then '-' else '+']
    ++ (if truncate TZ < 10 then intText 0 else []) ++ intText (truncate TZ)
    ++ (if dif < 10 then intText 0 else []) ++ intText (truncate dif)

/-- `MB_Time::getDateTimeString()` in the ESP32/ESP8266 build. The string is `none` when
`tm_wday` or `tm_mon` is outside its table. -/
def getDateTimeString (self : MB_Time) (time : Int) (localTime : tm) :
    MB_Time × Option (List Char) :=
  let self := getTime self time localTime
  let timeinfo := self.timeinfo
  (self, do
    let s ← tokenAt mb_sdow timeinfo.tm_wday
    let s := s ++ [','] ++ [' '] ++ intText timeinfo.tm_mday
    let s := s ++ [' '] ++ (← tokenAt mb_months timeinfo.tm_mon)
    let s := s ++ [' '] ++ intText (timeinfo.tm_year + 1900)
    let s := s ++ [' '] ++ (if timeinfo.tm_hour < 10 then intText 0 else [])
      ++ intText timeinfo.tm_hour
    let s := s ++ [':'] ++ (if timeinfo.tm_min < 10 then intText 0 else [])
      ++ intText timeinfo.tm_min
    let s := s ++ [':'] ++ (if timeinfo.tm_sec < 10 then intText 0 else [])
      ++ intText timeinfo.tm_sec
    pure (s ++ timeZoneText self.TZ))

/-! ## Reference definitions used in the statements -/

/-- The pieces of `str` between the occurrences of `delim` (there is always one piece more
than there are delimiters). -/
def segments (delim : Char) : List Char → List (List Char)
  | [] => [[]]
  | c :: cs =>
    if c = delim then [] :: segments delim cs
    else
      match segments delim cs with
      | [] => [[c]]
      | seg :: rest => (c :: seg) :: rest

/-- The tokens of `str`: its segments, trimmed, without those left empty. -/
def tokens (delim : Char) (str : List Char) : List (List Char) :=
  ((segments delim str).map trim).filter (fun s => decide (0 < s.length))

/-- The value `getTimestamp` computes from the tokens at the day, month, year, time and
time zone positions. -/
def fromTokens (d m y t z : List Char) (gmt : Bool) : Int :=
  let year := atoi (if y.length = 2 then "20".toList ++ y else y)
  let tk2 := splitToken t [] ':'
  let hr := if tk2.length = 3 then atoi (tk2.getD 0 []) else 0
  let mins := if tk2.length = 3 then atoi (tk2.getD 1 []) else 0
  let sec := if tk2.length = 3 then atoi (tk2.getD 2 []) else 0
  adjustTimeZone (getTimestampYMD year (monthIndex m + 1) (atoi d) hr mins sec) z gmt

/-- The token `tk[tkindex + 5]` of `getTimestamp`: the one at the time zone position. -/
def timeZoneToken (timeString : List Char) : Option (List Char) :=
  let tk := splitToken timeString [] ' '
  let tkindex : Int := if tk.length = 5 then -1 else 0
  tokenAt tk (tkindex + 5)

/-- The value of a decimal digit character. -/
def digitValue (c : Char) : Int :=
  (c.toNat : Int) - 48

/-- A well-formed time zone token: a sign followed by four decimal digits. -/
def isTimeZone (z : List Char) : Bool :=
  match z with
  | [sg, a, b, c, d] =>
    (sg = '+' || sg = '-') && isDigit a && isDigit b && isDigit c && isDigit d
  | _ => false

/-- No character of `a` is white space. -/
def NoSpace (a : List Char) : Prop :=
  ∀ c ∈ a, isSpace c = false

instance (a : List Char) : Decidable (NoSpace a) :=
  inferInstanceAs (Decidable (∀ c ∈ a, isSpace c = false))

/-- The two decimal digits of `n < 100`. -/
def twoDigits (n : Nat) : List Char :=
  [digitChar (n / 10 % 10), digitChar (n % 10)]

/-- The four decimal digits of `n < 10000`. -/
def fourDigits (n : Nat) : List Char :=
  [digitChar (n / 1000 % 10), digitChar (n / 100 % 10), digitChar (n / 10 % 10),
   digitChar (n % 10)]

/-- The header date "<dow>, DD Mon YYYY HH:MM:SS +0000" of the calendar time given
(`month` from 1 to 12). -/
def headerDate (dow : List Char) (year month day hour minute second : Nat) : List Char :=
  dow ++ [',', ' '] ++ twoDigits day ++ [' '] ++ mb_months.getD (month - 1) [] ++ [' ']
    ++ fourDigits year ++ [' '] ++ twoDigits hour ++ [':'] ++ twoDigits minute ++ [':']
    ++ twoDigits second ++ " +0000".toList

/-- The number of days of year `y`. -/
def daysInYear (y : Nat) : Nat :=
  if isLeapYear y then 366 else 365

/-- The number of days of month `m` (1 to 12) of a leap or a common year. -/
def monthLength (leap : Bool) (m : Nat) : Nat :=
  if m = 2 then (if leap then 29 else 28)
  else if m = 4 ∨ m = 6 ∨ m = 9 ∨ m = 11 then 30
  else 31

/-- The number of days of month `m` (1 to 12) of year `y`. -/
def daysInMonth (y m : Nat) : Nat :=
  monthLength (isLeapYear y) m

/-- A calendar date: month 1 to 12, day within the month. -/
def ValidDate (year month day : Nat) : Prop :=
  1 ≤ month ∧ month ≤ 12 ∧ 1 ≤ day ∧ day ≤ daysInMonth year month

instance (year month day : Nat) : Decidable (ValidDate year month day) :=
  inferInstanceAs (Decidable (_ ∧ _))

/-- Days from 1970-01-01 to January 1st of `year`, by counting the days of the years in
between: forward from 1970, and backward (a negative number) for an earlier year. -/
def daysToYear (year : Nat) : Int :=
  if 1970 ≤ year then ((((List.range' 1970 (year - 1970)).map daysInYear).sum : Nat) : Int)
  else -((((List.range' year (1970 - year)).map daysInYear).sum : Nat) : Int)

/-- Epoch seconds of a UTC instant, by counting: the days of the whole years between 1970
and `year`, of the months before `month`, and the days before `day`; then the seconds. -/
def utcSeconds (year month day hour minute second : Nat) : Int :=
  let days : Int := daysToYear year
    + ((((List.range' 1 (month - 1)).map (daysInMonth year)).sum : Nat) : Int)
    + ((day : Int) - 1)
  days * 86400 + hour * 3600 + minute * 60 + second

/-- The time zone token with the minutes rounded to the nearest integer. -/
def timeZoneRounded (TZ : ℚ) : List Char :=
  ['+'] ++ twoDigits (Int.floor TZ).toNat ++ twoDigits (round (Int.fract TZ * 60)).toNat

/-- The time zone token with the fraction of a minute discarded. -/
def timeZoneTruncated (TZ : ℚ) : List Char :=
  ['+'] ++ twoDigits (Int.floor TZ).toNat ++ twoDigits (Int.floor (Int.fract TZ * 60)).toNat

/-! ## Sample inputs of the statements -/

/-- The break-down of 2022-05-02T00:30:00, a Monday. -/
def sampleTime : tm :=
  { tm_sec := 0, tm_min := 30, tm_hour := 0, tm_mday := 2, tm_mon := 4, tm_year := 122,
    tm_wday := 1 }

/-- The break-down of 1970-01-01T00:00:00, a Thursday: what a clock that was never set
shows. -/
def unsetTime : tm :=
  { tm_sec := 0, tm_min := 0, tm_hour := 0, tm_mday := 1, tm_mon := 0, tm_year := 70,
    tm_wday := 4 }

/-- The answers of the platform during a `setClock` call made at uptime `millis` while the
platform clock is not set: `time(nullptr)` is 0 before and after `configTime`. -/
def unsetReadings (millis : Nat) : Readings :=
  { time := 0, millisGate := millis, millisSync := millis, timeAfterSync := 0,
    millisDiff := millis, localTime := unsetTime }

/-! ## The platform break-down -/

/-- The year that contains the day `days` (counted from 1970-01-01): the year `y` with
`daysBeforeYear y ≤ days < daysBeforeYear (y + 1)`. The estimate from the mean length of a
year, 146097 / 400 days, is off by at most one. -/
def yearOfDays (days : Int) : Int :=
  let y := 1970 + (400 * days) / 146097
  if days < daysBeforeYear y then y - 1
  else if daysBeforeYear (y + 1) ≤ days then y + 1
  else y

/-- The month (0 = January) that contains the day `yday` of a year (0 = January 1st): the
last month that starts on or before that day. -/
def monthOfYearDay (leap : Bool) (yday : Int) : Int :=
  (List.range 12).foldl (fun m i => if daysBeforeMonth leap i ≤ yday then (i : Int) else m) 0

/-- The platform break-down (`localtime_r`, `getLocalTime`), with the local time zone taken
to be UTC: the calendar fields of the instant `t` seconds after 1970-01-01T00:00:00Z, a
Thursday. -/
def gmtime (t : Int) : tm :=
  let days := t / 86400
  let rem := t % 86400
  let y := yearOfDays days
  let yday := days - daysBeforeYear y
  let m := monthOfYearDay (isLeapYear y) yday
  { tm_sec := rem % 60, tm_min := rem / 60 % 60, tm_hour := rem / 3600,
    tm_mday := yday - daysBeforeMonth (isLeapYear y) m + 1, tm_mon := m, tm_year := y - 1900,
    tm_wday := (days + 4) % 7 }

/-- The token `tk[tkindex + k]` of `getTimestamp`: `k` is 1 for the day, 2 for the month, 3
for the year, 4 for the time and 5 for the time zone. -/
def fieldToken (timeString : List Char) (k : Int) : Option (List Char) :=
  let tk := splitToken timeString [] ' '
  let tkindex : Int := if tk.length = 5 then -1 else 0
  tokenAt tk (tkindex + k)

/-- The tokens of `s'` are those of `s` with the one at position `tkindex + k` replaced by
`tok`: `s'` is `s` with that token replaced. -/
def ReplacesField (s s' : List Char) (k : Int) (tok : List Char) : Prop :=
  splitToken s' [] ' '
    = (splitToken s [] ' ').set
        ((if (splitToken s [] ' ').length = 5 then (-1 : Int) else 0) + k).toNat tok

instance (s s' : List Char) (k : Int) (tok : List Char) : Decidable (ReplacesField s s' k tok) :=
  inferInstanceAs (Decidable (_ = _))

/-- The year of `getTimestamp`: `if (y.length() == 2) y.prepend("20"); year = atoi(y);`. -/
def yearValue (y : List Char) : Int :=
  atoi (if y.length = 2 then "20".toList ++ y else y)

/-- The hour, minute and second of `getTimestamp`: the three parts of the time token split
on `:`, or zeros when there are not exactly three parts. -/
def timeFields (t : List Char) : Int × Int × Int :=
  match splitToken t [] ':' with
  | [a, b, c] => (atoi a, atoi b, atoi c)
  | _ => (0, 0, 0)

/-- The end of `getTimestamp`: `ts = getTimestamp(year, mon + 1, day, hr, mins, sec)` and the
time zone adjustment. -/
def fromFields (day mon year : Int) (hms : Int × Int × Int) (z : List Char) (gmt : Bool) :
    Int :=
  adjustTimeZone (getTimestampYMD year (mon + 1) day hms.1 hms.2.1 hms.2.2) z gmt

/-- The block `if (tk[tkindex + 5].length() == 5 && gmt) { ... }` with every character read
checked: `none` when a read is outside the token. -/
def adjustTimeZoneChecked (ts : Int) (tz : List Char) (gmt : Bool) : Option Int :=
  if tz.length = 5 && gmt then do
    -- strncpy(tmp, tz.c_str() + 1, 2); tz_h = atoi(tmp);
    let c1 ← tz[1]?
    let c2 ← tz[2]?
    let tz_h := atoi [c1, c2]
    -- strncpy(tmp, tz.c_str() + 3, 2); tz_m = atoi(tmp);
    let c3 ← tz[3]?
    let c4 ← tz[4]?
    let tz_m := atoi [c3, c4]
    let tzs := tz_h * 60 * 60 + tz_m * 60
    let c0 ← tz[0]?
    if c0 = '+' then pure (ts - tzs) else pure (ts + tzs)
  else pure ts

/-- The indices of the characters of the time zone token that the block reads. -/
def timeZoneReads (tz : List Char) (gmt : Bool) : List Nat :=
  if tz.length = 5 && gmt then [1, 2, 3, 4, 0] else []

/-- A call of a public member function, with what the platform answers during it. -/
inductive Call where
  | setClock (env : Readings) (gmtOffset daylightOffset : ℚ) (servers : List Char)
  | clockReady (time : Int)
  | getCurrentTimestamp (time : Int) (localTime : tm)
  | getDateTimeString (time : Int) (localTime : tm)
  | getTimestamp (timeString : List Char) (gmt : Bool)
  | getTimestampYMD (year mon date hour mins sec : Int)

/-- The object after a call. The two `getTimestamp` functions do not touch a member. -/
def step (self : MB_Time) : Call → MB_Time
  | Call.setClock env gmtOffset daylightOffset servers =>
    (setClock self env gmtOffset daylightOffset servers).1
  | Call.clockReady time => (clockReady self time).1
  | Call.getCurrentTimestamp time localTime => (getCurrentTimestamp self time localTime).1
  | Call.getDateTimeString time localTime => (getDateTimeString self time localTime).1
  | Call.getTimestamp _ _ => self
  | Call.getTimestampYMD _ _ _ _ _ _ => self

/-- The object after a sequence of calls. -/
def run (self : MB_Time) (calls : List Call) : MB_Time :=
  calls.foldl step self

/-- More than 5000 ms on the 32-bit uptime counter since `lastSyncMillis`, or no sync
recorded (`lastSyncMillis == 0`). -/
def Elapsed (self : MB_Time) (millis : Nat) : Prop :=
  ((millis : Int) - (self.lastSyncMillis : Int)) % 4294967296 > 5000 ∨ self.lastSyncMillis = 0

instance (self : MB_Time) (millis : Nat) : Decidable (Elapsed self millis) :=
  inferInstanceAs (Decidable (_ ∨ _))

/-- When the flag `_clockReady` is set, the three server strings are empty. -/
def ReadyCleared (self : MB_Time) : Prop :=
  self._clockReady = true → self._sv1 = [] ∧ self._sv2 = [] ∧ self._sv3 = []

/-! ## The tokenizer -/

theorem pushToken_eq (tk : List (List Char)) (s : List Char) :
    pushToken tk s = tk ++ (if 0 < s.length then [s] else []) := by
  unfold pushToken
  split <;> simp

theorem find_none_of_not_mem (pre a : List Char) (delim : Char) (h : delim ∉ a) :
    find (pre ++ a) delim pre.length = none := by
  have hi : List.indexOf delim a = a.length := List.indexOf_eq_length.2 h
  simp [find, hi]

theorem find_some_of_not_mem (pre a rest : List Char) (delim : Char) (h : delim ∉ a) :
    find (pre ++ (a ++ delim :: rest)) delim pre.length = some (pre.length + a.length) := by
  have hi : List.indexOf delim (a ++ delim :: rest) = a.length := by
    rw [List.indexOf_append_of_not_mem h]
    simp
  simp [find, hi]

theorem segments_of_not_mem (delim : Char) (a : List Char) (h : delim ∉ a) :
    segments delim a = [a] := by
  induction a with
  | nil => rfl
  | cons c cs ih =>
    have hc : ¬ c = delim := fun e => h (by simp [e])
    have hcs : delim ∉ cs := fun e => h (List.mem_cons_of_mem _ e)
    simp [segments, hc, ih hcs]

theorem segments_append (delim : Char) (a rest : List Char) (h : delim ∉ a) :
    segments delim (a ++ delim :: rest) = a :: segments delim rest := by
  induction a with
  | nil => simp [segments]
  | cons c cs ih =>
    have hc : ¬ c = delim := fun e => h (by simp [e])
    have hcs : delim ∉ cs := fun e => h (List.mem_cons_of_mem _ e)
    simp [segments, hc, ih hcs]

theorem tokens_of_not_mem (delim : Char) (a : List Char) (h : delim ∉ a) :
    tokens delim a = if 0 < (trim a).length then [trim a] else [] := by
  simp only [tokens, segments_of_not_mem delim a h, List.map, List.filter]
  split <;> simp_all

theorem tokens_append (delim : Char) (a rest : List Char) (h : delim ∉ a) :
    tokens delim (a ++ delim :: rest)
      = (if 0 < (trim a).length then [trim a] else []) ++ tokens delim rest := by
  simp only [tokens, segments_append delim a rest h, List.map, List.filter]
  split <;> simp_all

theorem first_delim (delim : Char) (s : List Char) :
    delim ∉ s ∨ ∃ a rest, s = a ++ delim :: rest ∧ delim ∉ a := by
  induction s with
  | nil => left; simp
  | cons c cs ih =>
    by_cases hc : c = delim
    · right; exact ⟨[], cs, by simp [hc], by simp⟩
    · rcases ih with h | ⟨a, rest, e, h⟩
      · left
        simp [h, Ne.symm hc]
      · right
        exact ⟨c :: a, rest, by simp [e], by simp [h, Ne.symm hc]⟩

theorem splitTokenLoop_eq (delim : Char) (fuel : Nat) :
    ∀ (pre suf : List Char) (tk : List (List Char)), suf.length ≤ fuel →
      splitTokenLoop (pre ++ suf) delim fuel pre.length (find (pre ++ suf) delim pre.length) tk
        = tk ++ tokens delim suf := by
  induction fuel with
  | zero =>
    intro pre suf tk h
    have hs : suf = [] := List.length_eq_zero.1 (Nat.le_zero.1 h)
    subst hs
    rw [find_none_of_not_mem pre [] delim (by simp)]
    simp [splitTokenLoop, pushToken_eq, tokens_of_not_mem, trim]
  | succ n ih =>
    intro pre suf tk h
    rcases first_delim delim suf with hn | ⟨a, rest, e, hn⟩
    · rw [find_none_of_not_mem pre suf delim hn]
      simp [splitTokenLoop, pushToken_eq, tokens_of_not_mem delim suf hn]
    · subst e
      rw [find_some_of_not_mem pre a rest delim hn]
      have hlen : rest.length ≤ n := by simp at h; omega
      have e1 : pre ++ (a ++ delim :: rest) = (pre ++ a ++ [delim]) ++ rest := by simp
      have e2 : pre.length + a.length + 1 = (pre ++ a ++ [delim]).length := by simp; omega
      have hsub : substr (pre ++ (a ++ delim :: rest)) pre.length (pre.length + a.length - pre.length) = a := by
        simp [substr]
      simp only [splitTokenLoop]
      rw [hsub, e2, e1, ih (pre ++ a ++ [delim]) rest _ hlen, tokens_append delim a rest hn,
        pushToken_eq]
      simp

theorem splitToken_eq (str : List Char) (tk : List (List Char)) (delim : Char) :
    splitToken str tk delim = tk ++ tokens delim str := by
  have := splitTokenLoop_eq delim str.length [] str tk (Nat.le_refl _)
  simpa [splitToken] using this

/-! ## The parser in terms of its tokens -/

theorem getTimestamp_short (s : List Char) (gmt : Bool)
    (h : (splitToken s [] ' ').length < 5) : getTimestamp s gmt = some 0 := by
  unfold getTimestamp
  simp only []
  rw [if_neg (by omega)]

theorem getTimestamp_five (s d m y t z : List Char) (gmt : Bool)
    (h : splitToken s [] ' ' = [d, m, y, t, z]) :
    getTimestamp s gmt = some (fromTokens d m y t z gmt) := by
  unfold getTimestamp fromTokens
  simp only [h]
  by_cases hy : y.length = 2 <;> by_cases h3 : (splitToken t [] ':').length = 3
  all_goals simp [tokenAt, hy, h3]

theorem getTimestamp_six (s w d m y t z : List Char) (rest : List (List Char)) (gmt : Bool)
    (h : splitToken s [] ' ' = w :: d :: m :: y :: t :: z :: rest) :
    getTimestamp s gmt = some (fromTokens d m y t z gmt) := by
  unfold getTimestamp fromTokens
  simp only [h]
  by_cases hy : y.length = 2 <;> by_cases h3 : (splitToken t [] ':').length = 3
  all_goals simp [tokenAt, hy, h3]

theorem isSpace_space : isSpace ' ' = true := by decide

theorem not_mem_space_of_noSpace (a : List Char) (h : NoSpace a) : ' ' ∉ a := by
  intro hm
  have := h ' ' hm
  simp [isSpace_space] at this

theorem dropWhile_of_noSpace (a : List Char) (h : NoSpace a) : a.dropWhile isSpace = a := by
  cases a with
  | nil => rfl
  | cons c cs =>
    have := h c (by simp)
    simp [List.dropWhile, this]

theorem trim_of_noSpace (a : List Char) (h : NoSpace a) : trim a = a := by
  have hr : NoSpace a.reverse := fun c hc => h c (List.mem_reverse.1 hc)
  simp [trim, dropWhile_of_noSpace a h, dropWhile_of_noSpace a.reverse hr]

theorem length_eq_five {α : Type} (l : List α) (h : l.length = 5) :
    ∃ a b c d e, l = [a, b, c, d, e] := by
  match l, h with
  | [a, b, c, d, e], _ => exact ⟨a, b, c, d, e, rfl⟩

theorem length_ge_six {α : Type} (l : List α) (h : 6 ≤ l.length) :
    ∃ w a b c d e rest, l = w :: a :: b :: c :: d :: e :: rest := by
  match l, h with
  | w :: a :: b :: c :: d :: e :: rest, _ => exact ⟨w, a, b, c, d, e, rest, rfl⟩

theorem isDigit_toNat (c : Char) (h : isDigit c = true) : 48 ≤ c.toNat ∧ c.toNat ≤ 57 := by
  simpa [isDigit] using h

theorem isSpace_of_isDigit (c : Char) (h : isDigit c = true) : isSpace c = false := by
  have := isDigit_toNat c h
  simp [isSpace]
  omega

theorem ne_minus_of_isDigit (c : Char) (h : isDigit c = true) : c ≠ '-' := by
  rintro rfl
  exact absurd h (by decide)

theorem ne_plus_of_isDigit (c : Char) (h : isDigit c = true) : c ≠ '+' := by
  rintro rfl
  exact absurd h (by decide)

theorem atoi_two (a b : Char) (ha : isDigit a = true) (hb : isDigit b = true) :
    atoi [a, b] = 10 * digitValue a + digitValue b := by
  simp [atoi, List.dropWhile, isSpace_of_isDigit a ha, ne_minus_of_isDigit a ha,
    ne_plus_of_isDigit a ha, atoiDigits, ha, hb, digitValue]
  ring

theorem adjustTimeZone_false (ts : Int) (z : List Char) : adjustTimeZone ts z false = ts := by
  simp [adjustTimeZone]

theorem adjustTimeZone_length (ts : Int) (z : List Char) (gmt : Bool) (h : z.length ≠ 5) :
    adjustTimeZone ts z gmt = ts := by
  simp [adjustTimeZone, h]

theorem adjustTimeZone_wellFormed (ts : Int) (sg a b c d : Char)
    (ha : isDigit a = true) (hb : isDigit b = true) (hc : isDigit c = true)
    (hd : isDigit d = true) :
    adjustTimeZone ts [sg, a, b, c, d] true
      = if sg = '+' then
          ts - ((10 * digitValue a + digitValue b) * 3600
            + (10 * digitValue c + digitValue d) * 60)
        else
          ts + ((10 * digitValue a + digitValue b) * 3600
            + (10 * digitValue c + digitValue d) * 60) := by
  simp only [adjustTimeZone, List.length_cons, List.length_nil, List.drop, List.take,
    atoi_two a b ha hb, atoi_two c d hc hd, List.head?]
  simp
  split <;> ring

theorem fromTokens_adjust (d m y t z : List Char) (gmt : Bool) :
    fromTokens d m y t z gmt = adjustTimeZone (fromTokens d m y t z false) z gmt := by
  simp [fromTokens, adjustTimeZone_false]

theorem getTimestamp_adjust (s : List Char) (h5 : 5 ≤ (splitToken s [] ' ').length) :
    ∃ ts z, timeZoneToken s = some z ∧ getTimestamp s false = some ts
      ∧ getTimestamp s true = some (adjustTimeZone ts z true) := by
  rcases Nat.eq_or_lt_of_le h5 with h | h
  · obtain ⟨d, m, y, t, z, e⟩ := length_eq_five _ h.symm
    refine ⟨fromTokens d m y t z false, z, ?_, getTimestamp_five s d m y t z false e, ?_⟩
    · simp [timeZoneToken, e, tokenAt]
    · rw [getTimestamp_five s d m y t z true e, fromTokens_adjust]
  · obtain ⟨w, d, m, y, t, z, rest, e⟩ := length_ge_six _ h
    refine ⟨fromTokens d m y t z false, z, ?_, getTimestamp_six s w d m y t z rest false e, ?_⟩
    · simp [timeZoneToken, e, tokenAt]
    · rw [getTimestamp_six s w d m y t z rest true e, fromTokens_adjust]

/-! ## Digits -/

theorem digitChar_toNat : ∀ n < 10, (digitChar n).toNat = 48 + n := by decide

theorem isDigit_digitChar (n : Nat) (h : n < 10) : isDigit (digitChar n) = true := by
  simp [isDigit, digitChar_toNat n h]
  omega

theorem digitValue_digitChar (n : Nat) (h : n < 10) : digitValue (digitChar n) = n := by
  simp [digitValue, digitChar_toNat n h]

theorem noSpace_cons (c : Char) (a : List Char) (hc : isSpace c = false) (ha : NoSpace a) :
    NoSpace (c :: a) := by
  intro x hx
  rcases List.mem_cons.1 hx with rfl | h
  · exact hc
  · exact ha x h

theorem noSpace_nil : NoSpace [] := by
  intro x hx
  cases hx

theorem noSpace_append (a b : List Char) (ha : NoSpace a) (hb : NoSpace b) :
    NoSpace (a ++ b) := by
  intro x hx
  rcases List.mem_append.1 hx with h | h
  · exact ha x h
  · exact hb x h

theorem isSpace_digitChar (n : Nat) (h : n < 10) : isSpace (digitChar n) = false :=
  isSpace_of_isDigit _ (isDigit_digitChar n h)

theorem ne_colon_of_isDigit (c : Char) (h : isDigit c = true) : c ≠ ':' := by
  rintro rfl
  exact absurd h (by decide)

theorem noSpace_twoDigits (n : Nat) : NoSpace (twoDigits n) :=
  noSpace_cons _ _ (isSpace_digitChar _ (Nat.mod_lt _ (by decide)))
    (noSpace_cons _ _ (isSpace_digitChar _ (Nat.mod_lt _ (by decide))) noSpace_nil)

theorem noSpace_fourDigits (n : Nat) : NoSpace (fourDigits n) :=
  noSpace_cons _ _ (isSpace_digitChar _ (Nat.mod_lt _ (by decide)))
    (noSpace_cons _ _ (isSpace_digitChar _ (Nat.mod_lt _ (by decide)))
      (noSpace_cons _ _ (isSpace_digitChar _ (Nat.mod_lt _ (by decide)))
        (noSpace_cons _ _ (isSpace_digitChar _ (Nat.mod_lt _ (by decide))) noSpace_nil)))

theorem colon_not_mem_twoDigits (n : Nat) : ':' ∉ twoDigits n := by
  have h1 := ne_colon_of_isDigit _ (isDigit_digitChar (n / 10 % 10) (Nat.mod_lt _ (by decide)))
  have h2 := ne_colon_of_isDigit _ (isDigit_digitChar (n % 10) (Nat.mod_lt _ (by decide)))
  simp [twoDigits, Ne.symm h1, Ne.symm h2]

theorem atoi_twoDigits (n : Nat) (h : n < 100) : atoi (twoDigits n) = n := by
  unfold twoDigits
  rw [atoi_two _ _ (isDigit_digitChar _ (Nat.mod_lt _ (by decide)))
    (isDigit_digitChar _ (Nat.mod_lt _ (by decide))),
    digitValue_digitChar _ (Nat.mod_lt _ (by decide)),
    digitValue_digitChar _ (Nat.mod_lt _ (by decide))]
  omega

theorem atoi_fourDigits (n : Nat) (h : n < 10000) : atoi (fourDigits n) = n := by
  have h1 := isDigit_digitChar (n / 1000 % 10) (Nat.mod_lt _ (by decide))
  have h2 := isDigit_digitChar (n / 100 % 10) (Nat.mod_lt _ (by decide))
  have h3 := isDigit_digitChar (n / 10 % 10) (Nat.mod_lt _ (by decide))
  have h4 := isDigit_digitChar (n % 10) (Nat.mod_lt _ (by decide))
  have v1 := digitChar_toNat (n / 1000 % 10) (Nat.mod_lt _ (by decide))
  have v2 := digitChar_toNat (n / 100 % 10) (Nat.mod_lt _ (by decide))
  have v3 := digitChar_toNat (n / 10 % 10) (Nat.mod_lt _ (by decide))
  have v4 := digitChar_toNat (n % 10) (Nat.mod_lt _ (by decide))
  simp [fourDigits, atoi, List.dropWhile, isSpace_of_isDigit _ h1, ne_minus_of_isDigit _ h1,
    ne_plus_of_isDigit _ h1, atoiDigits, h1, h2, h3, h4, v1, v2, v3, v4]
  omega

theorem monthIndex_table : ∀ m < 12, monthIndex (mb_months.getD m []) = (m : Int) := by
  decide

theorem noSpace_month : ∀ m < 12, ∀ c ∈ mb_months.getD m [], isSpace c = false := by
  decide

theorem length_month : ∀ m < 12, (mb_months.getD m []).length = 3 := by
  decide

/-! ## Calendar arithmetic -/

theorem daysBeforeYear_succ (y : Int) :
    daysBeforeYear (y + 1) = daysBeforeYear y + (if isLeapYear y then 366 else 365) := by
  unfold daysBeforeYear isLeapYear
  by_cases h4 : y % 4 = 0 <;> by_cases h100 : y % 100 = 0 <;> by_cases h400 : y % 400 = 0 <;>
    simp [h4, h100, h400] <;> omega

theorem sum_daysInYear (n : Nat) :
    (((List.range' 1970 n).map daysInYear).sum : Int) = daysBeforeYear (1970 + n) := by
  induction n with
  | zero => simp [daysBeforeYear]
  | succ k ih =>
    rw [List.range'_concat]
    simp only [List.map_append, List.sum_append, List.map_cons, List.map_nil, List.sum_cons,
      List.sum_nil, Nat.cast_add, ih]
    have := daysBeforeYear_succ (1970 + (k : Int))
    simp only [daysInYear]
    push_cast
    rw [show (1970 : Int) + (k + 1) = 1970 + k + 1 by ring, this]
    simp

theorem sum_monthLength : ∀ (leap : Bool) (m : Nat), m < 13 → 1 ≤ m →
    daysBeforeMonth leap ((m : Int) - 1)
      = (((List.range' 1 (m - 1)).map (monthLength leap)).sum : Nat) := by
  decide

theorem sum_daysInYear_before (n : Nat) :
    ∀ y : Nat, y + n = 1970 →
      -((((List.range' y n).map daysInYear).sum : Nat) : Int) = daysBeforeYear y := by
  induction n with
  | zero =>
    intro y hy
    have : y = 1970 := by omega
    subst this
    simp [daysBeforeYear]
  | succ k ih =>
    intro y hy
    have h1 := ih (y + 1) (by omega)
    have h2 := daysBeforeYear_succ (y : Int)
    have h3 : ((daysInYear y : Nat) : Int) = if isLeapYear (y : Int) then 366 else 365 := by
      simp only [daysInYear]
      split <;> simp
    rw [List.range'_succ]
    simp only [List.map_cons, List.sum_cons]
    generalize ((List.range' (y + 1) k).map daysInYear).sum = S at h1 ⊢
    rw [Nat.cast_add, h3]
    rw [Nat.cast_add, Nat.cast_one, h2] at h1
    generalize (if isLeapYear (y : Int) = true then (366 : Int) else 365) = L at h1 ⊢
    omega

theorem daysToYear_eq (y : Nat) : daysToYear y = daysBeforeYear y := by
  unfold daysToYear
  split
  · rename_i h
    have e3 := sum_daysInYear (y - 1970)
    have e4 : (1970 : Int) + ((y - 1970 : Nat) : Int) = y := by omega
    rw [e4] at e3
    exact e3
  · rename_i h
    exact sum_daysInYear_before (1970 - y) y (by omega)

theorem getTimestampYMD_eq_utcSeconds (y m d h mi s : Nat) (hv : ValidDate y m d) :
    getTimestampYMD y m d h mi s = utcSeconds y m d h mi s := by
  obtain ⟨hm1, hm2, _, _⟩ := hv
  have e1 : ((y : Int) - 1900 + 1900 + ((m : Int) - 1) / 12) = y := by omega
  have e2 : ((m : Int) - 1) % 12 = (m : Int) - 1 := by omega
  have e5 := sum_monthLength (isLeapYear y) m (by omega) hm1
  have e6 : daysInMonth y = monthLength (isLeapYear y) := by
    funext j
    rfl
  simp only [getTimestampYMD, mktime, utcSeconds, e1, e2, e5, e6, daysToYear_eq]

/-! ## The header date and its tokens -/

theorem tokens_cons_noSpace (a rest : List Char) (hn : NoSpace a) (he : a ≠ []) :
    tokens ' ' (a ++ ' ' :: rest) = a :: tokens ' ' rest := by
  rw [tokens_append ' ' a rest (not_mem_space_of_noSpace a hn), trim_of_noSpace a hn]
  simp [List.length_pos.2 he]

theorem tokens_single_noSpace (a : List Char) (hn : NoSpace a) (he : a ≠ []) :
    tokens ' ' a = [a] := by
  rw [tokens_of_not_mem ' ' a (not_mem_space_of_noSpace a hn), trim_of_noSpace a hn]
  simp [List.length_pos.2 he]

theorem splitToken_time (h mi s : Nat) :
    splitToken (twoDigits h ++ ':' :: (twoDigits mi ++ ':' :: twoDigits s)) [] ':'
      = [twoDigits h, twoDigits mi, twoDigits s] := by
  rw [splitToken_eq, tokens_append ':' _ _ (colon_not_mem_twoDigits h),
    tokens_append ':' _ _ (colon_not_mem_twoDigits mi),
    tokens_of_not_mem ':' _ (colon_not_mem_twoDigits s),
    trim_of_noSpace _ (noSpace_twoDigits h), trim_of_noSpace _ (noSpace_twoDigits mi),
    trim_of_noSpace _ (noSpace_twoDigits s)]
  simp [twoDigits]

theorem noSpace_time (h mi s : Nat) :
    NoSpace (twoDigits h ++ ':' :: (twoDigits mi ++ ':' :: twoDigits s)) :=
  noSpace_append _ _ (noSpace_twoDigits h)
    (noSpace_cons _ _ (by decide)
      (noSpace_append _ _ (noSpace_twoDigits mi)
        (noSpace_cons _ _ (by decide) (noSpace_twoDigits s))))

theorem splitToken_headerDate (dow : List Char) (y m d h mi s : Nat) (hdow : NoSpace dow)
    (hm1 : 1 ≤ m) (hm2 : m ≤ 12) :
    splitToken (headerDate dow y m d h mi s) [] ' '
      = [dow ++ [','], twoDigits d, mb_months.getD (m - 1) [], fourDigits y,
          twoDigits h ++ ':' :: (twoDigits mi ++ ':' :: twoDigits s), "+0000".toList] := by
  have e : headerDate dow y m d h mi s
      = (dow ++ [',']) ++ ' ' :: (twoDigits d ++ ' ' :: (mb_months.getD (m - 1) [] ++ ' ' ::
          (fourDigits y ++ ' ' :: ((twoDigits h ++ ':' :: (twoDigits mi ++ ':' :: twoDigits s))
            ++ ' ' :: "+0000".toList)))) := by
    simp [headerDate]
  have hmon : NoSpace (mb_months.getD (m - 1) []) := noSpace_month (m - 1) (by omega)
  have hmon' : mb_months.getD (m - 1) [] ≠ [] := by
    intro h0
    have := length_month (m - 1) (by omega)
    rw [h0] at this
    cases this
  rw [splitToken_eq, e, List.nil_append,
    tokens_cons_noSpace _ _ (noSpace_append _ _ hdow (noSpace_cons _ _ (by decide) noSpace_nil))
      (by simp),
    tokens_cons_noSpace _ _ (noSpace_twoDigits d) (by simp [twoDigits]),
    tokens_cons_noSpace _ _ hmon hmon',
    tokens_cons_noSpace _ _ (noSpace_fourDigits y) (by simp [fourDigits]),
    tokens_cons_noSpace _ _ (noSpace_time h mi s) (by simp [twoDigits]),
    tokens_single_noSpace _ (by decide) (by decide)]

theorem fromTokens_headerDate (y m d h mi s : Nat) (hm1 : 1 ≤ m) (hm2 : m ≤ 12)
    (hy : y < 10000) (hd : d < 100) (hh : h < 100) (hmi : mi < 100) (hs : s < 100) :
    fromTokens (twoDigits d) (mb_months.getD (m - 1) []) (fourDigits y)
        (twoDigits h ++ ':' :: (twoDigits mi ++ ':' :: twoDigits s)) "+0000".toList true
      = getTimestampYMD y m d h mi s := by
  have hmon : monthIndex (mb_months.getD (m - 1) []) + 1 = (m : Int) := by
    rw [monthIndex_table (m - 1) (by omega)]
    omega
  have hz : ∀ ts, adjustTimeZone ts "+0000".toList true = ts := by
    intro ts
    have := adjustTimeZone_wellFormed ts '+' '0' '0' '0' '0' (by decide) (by decide)
      (by decide) (by decide)
    simpa [digitValue] using this
  unfold fromTokens
  simp only [splitToken_time, hz, hmon]
  simp [fourDigits, atoi_twoDigits, hd, hh, hmi, hs]
  have := atoi_fourDigits y hy
  simp only [fourDigits] at this
  rw [this]

/-! ## The formatter -/

theorem truncate_of_nonneg (x : ℚ) (h : 0 ≤ x) : truncate x = Int.floor x := by
  simp [truncate, h]

theorem truncate_intCast (n : Int) : truncate (n : ℚ) = n := by
  unfold truncate
  split <;> simp

theorem pad_intText : ∀ n : Nat, n < 100 →
    (if (n : Int) < 10 then intText 0 else []) ++ intText (n : Int) = twoDigits n := by
  decide

theorem roundEven_intCast (z : Int) : roundEven (z : ℚ) = z := by
  simp [roundEven]

theorem roundEven_up (q : ℚ) (f : Int) (h1 : (f : ℚ) + 1 / 2 < q) (h2 : q < (f : ℚ) + 1) :
    roundEven q = f + 1 := by
  have hf : Int.floor q = f := by
    rw [Int.floor_eq_iff]
    constructor <;> linarith
  unfold roundEven
  simp only [hf]
  rw [if_neg (by linarith), if_pos (by linarith)]

/-- A number `m * 2 ^ k` whose significand `m` has at most `prec` bits, at or above the
spacing of the subnormal numbers, is a number of the format: rounding leaves it as it is. -/
theorem roundFloat_of_grid (prec : Nat) (emin m k : Int) (hm : |m| < 2 ^ prec)
    (hk : emin - ((prec : Int) - 1) ≤ k) :
    roundFloat prec emin ((m : ℚ) * 2 ^ k) = (m : ℚ) * 2 ^ k := by
  rcases eq_or_ne m 0 with h0 | h0
  · subst h0
    simp [roundFloat, roundEven]
  have hpos : (0 : ℚ) < |(m : ℚ) * 2 ^ k| := by
    apply abs_pos.2
    exact mul_ne_zero (by exact_mod_cast h0) (zpow_ne_zero _ (by norm_num))
  have hlt : |(m : ℚ) * 2 ^ k| < ((2 : ℕ) : ℚ) ^ ((prec : Int) + k) := by
    rw [abs_mul, abs_of_pos (zpow_pos (by norm_num : (0 : ℚ) < 2) k), zpow_add₀ (by norm_num)]
    apply mul_lt_mul_of_pos_right _ (zpow_pos (by norm_num) k)
    have : ((|m| : Int) : ℚ) < ((2 ^ prec : Int) : ℚ) := by exact_mod_cast hm
    simpa using this
  have hlog : Int.log 2 |(m : ℚ) * 2 ^ k| < (prec : Int) + k :=
    (Int.lt_zpow_iff_log_lt (by norm_num) hpos).1 hlt
  have he : max (Int.log 2 |(m : ℚ) * 2 ^ k|) emin - ((prec : Int) - 1) ≤ k := by
    rcases max_cases (Int.log 2 |(m : ℚ) * 2 ^ k|) emin with ⟨h, _⟩ | ⟨h, _⟩ <;> rw [h] <;> omega
  unfold roundFloat
  simp only
  generalize max (Int.log 2 |(m : ℚ) * 2 ^ k|) emin - ((prec : Int) - 1) = E at he
  obtain ⟨j, rfl⟩ : ∃ j : Nat, k = E + j := ⟨(k - E).toNat, by omega⟩
  have h2 : (2 : ℚ) ^ E ≠ 0 := zpow_ne_zero _ (by norm_num)
  have hq : (m : ℚ) * 2 ^ (E + (j : Int)) / 2 ^ E = ((m * 2 ^ j : Int) : ℚ) := by
    rw [zpow_add₀ (by norm_num), zpow_natCast]
    push_cast
    field_simp
    ring
  rw [hq, roundEven_intCast, zpow_add₀ (by norm_num), zpow_natCast]
  push_cast
  ring

/-- Rounding in the binade `2 ^ e ≤ |x| < 2 ^ (e + 1)` of a normal number. -/
theorem roundFloat_of_binade (prec : Nat) (emin e : Int) (x : ℚ)
    (h1 : (2 : ℚ) ^ e ≤ |x|) (h2 : |x| < (2 : ℚ) ^ (e + 1)) (he : emin ≤ e) :
    roundFloat prec emin x
      = roundEven (x / 2 ^ (e - ((prec : Int) - 1))) * 2 ^ (e - ((prec : Int) - 1)) := by
  have hpos : 0 < |x| := lt_of_lt_of_le (zpow_pos (by norm_num) e) h1
  have hlog : Int.log 2 |x| = e := by
    apply le_antisymm
    · have := (Int.lt_zpow_iff_log_lt (by norm_num : 1 < 2) hpos).1 (by exact_mod_cast h2)
      omega
    · exact (Int.zpow_le_iff_le_log (by norm_num : 1 < 2) hpos).1 (by exact_mod_cast h1)
  unfold roundFloat
  simp only [hlog, max_eq_left he]

theorem fl32_intCast (m : Int) (hm : |m| < 16777216) : fl32 (m : ℚ) = m := by
  have := roundFloat_of_grid 24 (-126) m 0 (by simpa using hm) (by norm_num)
  simpa [fl32] using this

theorem fl64_intCast (m : Int) (hm : |m| < 9007199254740992) : fl64 (m : ℚ) = m := by
  have := roundFloat_of_grid 53 (-1022) m 0 (by simpa using hm) (by norm_num)
  simpa [fl64] using this

/-- A multiple `m / 65536` with `m < 2 ^ 24` is a `float`. -/
theorem fl32_sixteenths (m : Nat) (hm : m < 16777216) :
    fl32 ((m : ℚ) / 65536) = (m : ℚ) / 65536 := by
  have := roundFloat_of_grid 24 (-126) (m : Int) (-16)
    (by rw [abs_of_nonneg (by positivity)]; norm_num; omega) (by norm_num)
  have e : ((m : Int) : ℚ) * 2 ^ (-16 : Int) = (m : ℚ) / 65536 := by
    rw [zpow_neg, div_eq_mul_inv]; norm_num
  rw [e] at this
  exact this

/-- A multiple `m / 65536` with `m < 2 ^ 53` is a `double`. -/
theorem fl64_sixteenths (m : Nat) (hm : m < 9007199254740992) :
    fl64 ((m : ℚ) / 65536) = (m : ℚ) / 65536 := by
  have := roundFloat_of_grid 53 (-1022) (m : Int) (-16)
    (by rw [abs_of_nonneg (by positivity)]; norm_num; omega) (by norm_num)
  have e : ((m : Int) : ℚ) * 2 ^ (-16 : Int) = (m : ℚ) / 65536 := by
    rw [zpow_neg, div_eq_mul_inv]; norm_num
  rw [e] at this
  exact this

theorem floor_grid (h r : Nat) (hr : r < 65536) :
    Int.floor ((h : ℚ) + (r : ℚ) / 65536) = h := by
  rw [Int.floor_eq_iff]
  have h1 : (0 : ℚ) ≤ (r : ℚ) / 65536 := by positivity
  have h2 : (r : ℚ) / 65536 < 1 := by
    rw [div_lt_one (by norm_num)]
    exact_mod_cast hr
  constructor
  · push_cast; linarith
  · push_cast; linarith

/-- On an offset `h + r / 65536` below 24 every operation of
`(p * (TZ * 10 - (int)TZ * 10)) * 60.0 / 10` is exact: `dif` is the fractional part times
60. -/
theorem dif_grid (h r : Nat) (hh : h < 24) (hr : r < 65536) :
    fl32 (fl64 (fl64 (fl32 (((1 : Int) : ℚ) * fl32 (fl32 (((h : ℚ) + (r : ℚ) / 65536) * 10)
        - fl32 ((((h : Int) * 10 : Int) : ℚ)))) * 60) / 10))
      = (r : ℚ) / 65536 * 60 := by
  have e1 : ((h : ℚ) + (r : ℚ) / 65536) * 10 = ((10 * (65536 * h + r) : Nat) : ℚ) / 65536 := by
    push_cast; ring
  have e2 : ((10 * (65536 * h + r) : Nat) : ℚ) / 65536 - (((h : Int) * 10 : Int) : ℚ)
      = ((10 * r : Nat) : ℚ) / 65536 := by
    push_cast; ring
  have e3 : ((1 : Int) : ℚ) * (((10 * r : Nat) : ℚ) / 65536) = ((10 * r : Nat) : ℚ) / 65536 := by
    push_cast; ring
  have e4 : ((10 * r : Nat) : ℚ) / 65536 * 60 = ((600 * r : Nat) : ℚ) / 65536 := by
    push_cast; ring
  have e5 : ((600 * r : Nat) : ℚ) / 65536 / 10 = ((60 * r : Nat) : ℚ) / 65536 := by
    push_cast; ring
  rw [e1, fl32_sixteenths _ (by omega),
    fl32_intCast _ (by rw [abs_of_nonneg (by positivity)]; omega), e2,
    fl32_sixteenths _ (by omega), e3, fl32_sixteenths _ (by omega), e4,
    fl64_sixteenths _ (by omega), e5, fl64_sixteenths _ (by omega),
    fl32_sixteenths _ (by omega)]
  push_cast; ring

/-- On the offsets `0 ≤ TZ < 24` that are whole multiples of `1/65536` the text is the sign,
the whole hours and the whole minutes. -/
theorem timeZoneText_of_sixteenths (TZ : ℚ) (hq : ∃ n : Nat, TZ = (n : ℚ) / 65536)
    (h24 : TZ < 24) : timeZoneText TZ = [' '] ++ timeZoneTruncated TZ := by
  obtain ⟨n, rfl⟩ := hq
  have h0 : (0 : ℚ) ≤ (n : ℚ) / 65536 := by positivity
  have hn : n < 24 * 65536 := by
    rw [div_lt_iff₀ (by norm_num)] at h24
    exact_mod_cast h24
  have hr : n % 65536 < 65536 := Nat.mod_lt _ (by norm_num)
  have hh : n / 65536 < 24 := by omega
  have hsplit : (n : ℚ) / 65536 = ((n / 65536 : Nat) : ℚ) + ((n % 65536 : Nat) : ℚ) / 65536 := by
    have h2 : (n : ℚ) = 65536 * ((n / 65536 : Nat) : ℚ) + ((n % 65536 : Nat) : ℚ) := by
      exact_mod_cast (Nat.div_add_mod n 65536).symm
    nth_rewrite 1 [h2]
    ring
  generalize n / 65536 = h at hh hsplit
  generalize n % 65536 = r at hr hsplit
  rw [hsplit] at h0 ⊢
  have hfl : Int.floor ((h : ℚ) + (r : ℚ) / 65536) = h := floor_grid h r hr
  have hfr : Int.fract ((h : ℚ) + (r : ℚ) / 65536) = (r : ℚ) / 65536 := by
    rw [← Int.self_sub_floor, hfl]
    push_cast
    ring
  have hf0 : (0 : ℚ) ≤ (r : ℚ) / 65536 * 60 := by positivity
  have hk : Int.floor ((r : ℚ) / 65536 * 60) = ((60 * r / 65536 : Nat) : Int) := by
    rw [Int.floor_eq_iff]
    have h3 : (60 * r : ℚ)
        = 65536 * ((60 * r / 65536 : Nat) : ℚ) + ((60 * r % 65536 : Nat) : ℚ) := by
      exact_mod_cast (Nat.div_add_mod (60 * r) 65536).symm
    have h4 : ((60 * r % 65536 : Nat) : ℚ) < 65536 := by
      exact_mod_cast Nat.mod_lt (60 * r) (by norm_num)
    have h5 : (0 : ℚ) ≤ ((60 * r % 65536 : Nat) : ℚ) := by positivity
    have h6 : (r : ℚ) / 65536 * 60
        = ((60 * r / 65536 : Nat) : ℚ) + ((60 * r % 65536 : Nat) : ℚ) / 65536 := by
      field_simp
      linarith
    rw [h6]
    simp only [Int.cast_natCast]
    constructor
    · have : (0 : ℚ) ≤ ((60 * r % 65536 : Nat) : ℚ) / 65536 := by positivity
      linarith
    · have : ((60 * r % 65536 : Nat) : ℚ) / 65536 < 1 := by
        rw [div_lt_one (by norm_num)]
        exact h4
      linarith
  have hk60 : 60 * r / 65536 < 60 := by omega
  have hlt : ((r : ℚ) / 65536 * 60 < 10) ↔ (((60 * r / 65536 : Nat) : Int) < 10) := by
    rw [← hk, Int.floor_lt]
    norm_num
  have p1 := pad_intText h (by omega)
  have p2 := pad_intText (60 * r / 65536) (by omega)
  unfold timeZoneText timeZoneTruncated
  simp only [not_lt.2 h0, if_false, truncate_of_nonneg _ h0, hfl, dif_grid h r hh hr,
    truncate_of_nonneg _ hf0, hfr, hk, hlt, Int.toNat_ofNat]
  rw [← p1, ← p2]
  simp [List.append_assoc]

theorem getDateTimeString_eq (self : MB_Time) (time : Int) (localTime : tm)
    (hw0 : 0 ≤ localTime.tm_wday) (hw7 : localTime.tm_wday < 7)
    (hm0 : 0 ≤ localTime.tm_mon) (hm12 : localTime.tm_mon < 12) :
    ∃ pre, (getDateTimeString self time localTime).2 = some (pre ++ timeZoneText self.TZ) := by
  have h1 : ∃ a, tokenAt mb_sdow localTime.tm_wday = some a := by
    have hl : localTime.tm_wday.toNat < mb_sdow.length := by
      have : mb_sdow.length = 7 := rfl
      omega
    exact ⟨mb_sdow[localTime.tm_wday.toNat], by simp [tokenAt, hw0, List.getElem?_eq_getElem hl]⟩
  have h2 : ∃ b, tokenAt mb_months localTime.tm_mon = some b := by
    have hl : localTime.tm_mon.toNat < mb_months.length := by
      have : mb_months.length = 12 := rfl
      omega
    exact ⟨mb_months[localTime.tm_mon.toNat], by simp [tokenAt, hm0, List.getElem?_eq_getElem hl]⟩
  obtain ⟨a, ha⟩ := h1
  obtain ⟨b, hb⟩ := h2
  simp only [getDateTimeString, getTime, ha, hb]
  exact ⟨_, rfl⟩

theorem segments_ne_nil (delim : Char) (s : List Char) : segments delim s ≠ [] := by
  induction s with
  | nil => simp [segments]
  | cons c cs ih =>
    unfold segments
    split
    · simp
    · split <;> simp

theorem segments_append_cons (delim : Char) (a b : List Char) :
    segments delim (a ++ delim :: b) = segments delim a ++ segments delim b := by
  induction a with
  | nil => simp [segments]
  | cons c cs ih =>
    by_cases hc : c = delim
    · simp [segments, hc, ih]
    · obtain ⟨seg, rest, e⟩ := List.exists_cons_of_ne_nil (segments_ne_nil delim cs)
      simp [segments, hc, ih, e]

theorem tokens_append_cons (delim : Char) (a b : List Char) :
    tokens delim (a ++ delim :: b) = tokens delim a ++ tokens delim b := by
  simp [tokens, segments_append_cons]

theorem splitToken_getLast (pre z : List Char) (hz : NoSpace z) (he : z ≠ []) :
    (splitToken (pre ++ [' '] ++ z) [] ' ').getLast? = some z := by
  rw [splitToken_eq, List.append_assoc, List.singleton_append, tokens_append_cons,
    tokens_single_noSpace z hz he]
  simp

theorem noSpace_timeZoneTruncated (TZ : ℚ) : NoSpace (timeZoneTruncated TZ) :=
  noSpace_append _ _ (noSpace_append _ _ (noSpace_cons _ _ (by decide) noSpace_nil)
    (noSpace_twoDigits _)) (noSpace_twoDigits _)

theorem floor_23_4 : Int.floor ((23 : ℚ) / 4) = 5 := by
  norm_num [Int.floor_eq_iff]

theorem fract_23_4 : Int.fract ((23 : ℚ) / 4) = 3 / 4 := by
  rw [← Int.self_sub_floor, floor_23_4]
  norm_num

theorem timeZoneTruncated_23_4 : timeZoneTruncated (23 / 4) = "+0545".toList := by
  have h2 : Int.floor ((3 : ℚ) / 4 * 60) = 45 := by norm_num [Int.floor_eq_iff]
  unfold timeZoneTruncated
  rw [fract_23_4, floor_23_4, h2]
  decide

theorem floor_377487 : Int.floor ((377487 : ℚ) / 65536) = 5 := by
  norm_num [Int.floor_eq_iff]

theorem fract_377487 : Int.fract ((377487 : ℚ) / 65536) = 49807 / 65536 := by
  rw [← Int.self_sub_floor, floor_377487]
  norm_num

theorem timeZoneText_377487 : timeZoneText (377487 / 65536) = " +0545".toList := by
  have h3 : Int.floor ((49807 : ℚ) / 65536 * 60) = 45 := by norm_num [Int.floor_eq_iff]
  rw [timeZoneText_of_sixteenths _ ⟨377487, by norm_num⟩ (by norm_num)]
  unfold timeZoneTruncated
  rw [fract_377487, floor_377487, h3]
  decide

theorem timeZoneRounded_377487 : timeZoneRounded (377487 / 65536) = "+0546".toList := by
  have h3 : round ((49807 : ℚ) / 65536 * 60) = 46 := by
    rw [round_eq]
    norm_num [Int.floor_eq_iff]
  unfold timeZoneRounded
  rw [fract_377487, floor_377487, h3]
  decide

/-- The product `TZ * 10` for the `float` nearest to 5.1, which is 10695475/2097152: the
exact product 50.99999904... is not a `float`, and the nearest one is 51. -/
theorem fl32_nearest_5_1_times_10 : fl32 ((10695475 : ℚ) / 2097152 * 10) = 51 := by
  unfold fl32
  rw [roundFloat_of_binade 24 (-126) 5 _ (by rw [abs_of_pos (by norm_num)]; norm_num)
    (by rw [abs_of_pos (by norm_num)]; norm_num) (by norm_num)]
  rw [roundEven_up _ 13369343 (by norm_num) (by norm_num)]
  norm_num

/-- Off the multiples of `1/65536` the rounding of the arithmetic shows in the text: for the
`float` nearest to 5.1 the minutes printed are 06, while the fractional part times 60 is
5.99999427... -/
theorem timeZoneText_nearest_5_1 :
    timeZoneText (10695475 / 2097152) = " +0506".toList := by
  have h1 : truncate ((10695475 : ℚ) / 2097152) = 5 := by
    rw [truncate_of_nonneg _ (by norm_num)]
    norm_num [Int.floor_eq_iff]
  have a2 : fl32 (((5 * 10 : Int) : Int) : ℚ) = 50 := by
    have := fl32_intCast 50 (by decide)
    norm_num at this ⊢
    exact this
  have a3 : fl32 (1 : ℚ) = 1 := by simpa using fl32_intCast 1 (by decide)
  have a4 : fl64 (60 : ℚ) = 60 := by simpa using fl64_intCast 60 (by decide)
  have a5 : fl64 (6 : ℚ) = 6 := by simpa using fl64_intCast 6 (by decide)
  have a6 : fl32 (6 : ℚ) = 6 := by simpa using fl32_intCast 6 (by decide)
  have h3 : truncate (6 : ℚ) = 6 := by simpa using truncate_intCast 6
  unfold timeZoneText
  simp only [show ¬ (((10695475 : ℚ) / 2097152) < 0) by norm_num, if_false, h1,
    fl32_nearest_5_1_times_10, a2, show ((51 : ℚ) - 50) = 1 by norm_num, a3, Int.cast_one,
    one_mul, mul_one, a4, show ((60 : ℚ) / 10) = 6 by norm_num, a5, a6, h3]
  decide

theorem getDateTimeString_pre (self : MB_Time) (time : Int) :
    (getDateTimeString self time sampleTime).2
      = some ("Mon, 2 May 2022 00:30:00".toList ++ timeZoneText self.TZ) := by
  simp only [getDateTimeString, getTime]
  rfl

theorem timeZoneText_neg_8 : timeZoneText (-8) = " -0-800".toList := by
  have h1 : truncate (-8 : ℚ) = -8 := by simpa using truncate_intCast (-8)
  have a1 : fl32 ((-8 : ℚ) * 10) = -80 := by
    have := fl32_intCast (-80) (by decide)
    norm_num at this ⊢
    exact this
  have a2 : fl32 (((-8 * 10 : Int) : Int) : ℚ) = -80 := by
    have := fl32_intCast (-80) (by decide)
    norm_num at this ⊢
    exact this
  have a3 : fl32 (0 : ℚ) = 0 := by simpa using fl32_intCast 0 (by decide)
  have a4 : fl64 (0 : ℚ) = 0 := by simpa using fl64_intCast 0 (by decide)
  have h3 : truncate (0 : ℚ) = 0 := by simpa using truncate_intCast 0
  unfold timeZoneText
  simp only [show ((-8 : ℚ) < 0) by norm_num, if_true, h1, a1, a2, sub_self, a3, mul_zero,
    zero_mul, zero_div, a4, h3]
  simp
  decide

/-! ## The clock -/

theorem dispatchServers_lastSyncMillis (self : MB_Time) (tk : List (List Char)) :
    (dispatchServers self tk).1.lastSyncMillis = self.lastSyncMillis := by
  unfold dispatchServers
  split <;> rfl

theorem dispatchServers_now (self : MB_Time) (tk : List (List Char)) :
    (dispatchServers self tk).1.now = self.now := by
  unfold dispatchServers
  split <;> rfl

theorem setClock_configTime (self : MB_Time) (env : Readings) (g d : ℚ) (servers : List Char) :
    (setClock self env g d servers).2.1.isSome
      = syncDue { self with TZ := g, DST_MN := d, now := env.time } env.millisGate false := by
  simp only [setClock]
  split <;> simp_all

theorem setClock_lastSyncMillis (self : MB_Time) (env : Readings) (g d : ℚ)
    (servers : List Char) (h : (setClock self env g d servers).2.1 ≠ none) :
    (setClock self env g d servers).1.lastSyncMillis = env.millisSync % 4294967296 := by
  simp only [setClock] at h ⊢
  split at h
  · rename_i hs
    simp only [hs, if_true]
    split <;> simp [clearServers, dispatchServers_lastSyncMillis]
  · simp at h

theorem setClock_now (self : MB_Time) (env : Readings) (g d : ℚ) (servers : List Char) :
    (setClock self env g d servers).1.now
      = if (setClock self env g d servers).2.1.isSome then env.timeAfterSync else env.time := by
  simp only [setClock]
  split <;> split <;> simp_all [clearServers]

theorem setClock_result (self : MB_Time) (env : Readings) (g d : ℚ) (servers : List Char) :
    (setClock self env g d servers).2.2
      = decide ((setClock self env g d servers).1.now > ESP_TIME_DEFAULT_TS) := by
  simp only [setClock]
  split <;> split <;> simp_all [clearServers]

theorem dispatchServers_offsets (self : MB_Time) (tk : List (List Char)) :
    (dispatchServers self tk).1.TZ = self.TZ
      ∧ (dispatchServers self tk).1.DST_MN = self.DST_MN := by
  unfold dispatchServers
  split <;> exact ⟨rfl, rfl⟩

theorem setClock_offsets (self : MB_Time) (env : Readings) (g d : ℚ) (servers : List Char) :
    (setClock self env g d servers).1.TZ = g ∧ (setClock self env g d servers).1.DST_MN = d := by
  simp only [setClock]
  split <;> split <;>
    simp [clearServers, (dispatchServers_offsets _ _).1, (dispatchServers_offsets _ _).2]

theorem syncDue_false_of_recent (self : MB_Time) (millis : Nat) (newConfig : Bool)
    (h0 : self.lastSyncMillis ≠ 0)
    (hdt : ((millis : Int) - (self.lastSyncMillis : Int)) % 4294967296 ≤ 5000) :
    syncDue self millis newConfig = false := by
  simp [syncDue, h0, hdt]

/-! ## The break-down and the calendar round trip -/

theorem daysBeforeYear_succ_bounds (y : Int) :
    daysBeforeYear y + 365 ≤ daysBeforeYear (y + 1)
      ∧ daysBeforeYear (y + 1) ≤ daysBeforeYear y + 366 := by
  rw [daysBeforeYear_succ]
  split <;> omega

theorem daysBeforeYear_estimate (days : Int) :
    daysBeforeYear (1970 + (400 * days) / 146097) - 365 ≤ days
      ∧ days < daysBeforeYear (1970 + (400 * days) / 146097) + 730 := by
  unfold daysBeforeYear
  omega

theorem yearOfDays_spec (days : Int) :
    daysBeforeYear (yearOfDays days) ≤ days ∧ days < daysBeforeYear (yearOfDays days + 1) := by
  have he := daysBeforeYear_estimate days
  have h0 := daysBeforeYear_succ_bounds (1970 + (400 * days) / 146097 - 1)
  have h1 := daysBeforeYear_succ_bounds (1970 + (400 * days) / 146097)
  have h2 := daysBeforeYear_succ_bounds (1970 + (400 * days) / 146097 + 1)
  rw [sub_add_cancel] at h0
  unfold yearOfDays
  simp only []
  generalize 1970 + (400 * days) / 146097 = e at *
  split
  · rw [sub_add_cancel]
    omega
  · split
    · omega
    · omega

theorem daysBeforeYear_mono (a b : Int) (h : a ≤ b) : daysBeforeYear a ≤ daysBeforeYear b := by
  obtain ⟨n, rfl⟩ := Int.le.dest h
  induction n with
  | zero => simp
  | succ k ih =>
    have := daysBeforeYear_succ_bounds (a + (k : Int))
    have e : a + ((k + 1 : Nat) : Int) = a + (k : Int) + 1 := by push_cast; ring
    rw [e]
    have := ih (by omega)
    omega

theorem yearOfDays_eq (days y : Int) (h1 : daysBeforeYear y ≤ days)
    (h2 : days < daysBeforeYear (y + 1)) : yearOfDays days = y := by
  have hs := yearOfDays_spec days
  by_contra hne
  rcases lt_or_gt_of_ne hne with h | h
  · have := daysBeforeYear_mono (yearOfDays days + 1) y (by omega)
    omega
  · have := daysBeforeYear_mono (y + 1) (yearOfDays days) (by omega)
    omega

theorem monthScan_inv (leap : Bool) (yday : Int) (l : List Nat) (hl : ∀ i ∈ l, i < 12) :
    ∀ m0 : Int, (0 ≤ m0 ∧ m0 < 12 ∧ daysBeforeMonth leap m0 ≤ yday) →
      (0 ≤ l.foldl (fun m i => if daysBeforeMonth leap i ≤ yday then (i : Int) else m) m0
        ∧ l.foldl (fun m i => if daysBeforeMonth leap i ≤ yday then (i : Int) else m) m0 < 12
        ∧ daysBeforeMonth leap
            (l.foldl (fun m i => if daysBeforeMonth leap i ≤ yday then (i : Int) else m) m0)
          ≤ yday) := by
  induction l with
  | nil => intro m0 h; simpa using h
  | cons a as ih =>
    intro m0 h
    have ha := hl a (by simp)
    have hstep : 0 ≤ (if daysBeforeMonth leap a ≤ yday then (a : Int) else m0)
        ∧ (if daysBeforeMonth leap a ≤ yday then (a : Int) else m0) < 12
        ∧ daysBeforeMonth leap (if daysBeforeMonth leap a ≤ yday then (a : Int) else m0)
          ≤ yday := by
      split
      · rename_i hc
        exact ⟨by omega, by omega, hc⟩
      · exact h
    exact ih (fun i hi => hl i (List.mem_cons_of_mem _ hi)) _ hstep

theorem monthOfYearDay_spec (leap : Bool) (yday : Int) (h : 0 ≤ yday) :
    0 ≤ monthOfYearDay leap yday ∧ monthOfYearDay leap yday < 12
      ∧ daysBeforeMonth leap (monthOfYearDay leap yday) ≤ yday := by
  apply monthScan_inv leap yday (List.range 12) (fun i hi => List.mem_range.1 hi) 0
  refine ⟨by omega, by omega, ?_⟩
  have : daysBeforeMonth leap 0 = 0 := by cases leap <;> decide
  omega

theorem mktime_gmtime (t : Int) : mktime (gmtime t) = t := by
  have hy := yearOfDays_spec (t / 86400)
  have hm := monthOfYearDay_spec (isLeapYear (yearOfDays (t / 86400)))
    (t / 86400 - daysBeforeYear (yearOfDays (t / 86400))) (by omega)
  simp only [mktime, gmtime]
  generalize monthOfYearDay (isLeapYear (yearOfDays (t / 86400)))
    (t / 86400 - daysBeforeYear (yearOfDays (t / 86400))) = m at hm ⊢
  have e1 : yearOfDays (t / 86400) - 1900 + 1900 + m / 12 = yearOfDays (t / 86400) := by omega
  have e2 : m % 12 = m := by omega
  rw [e1, e2]
  generalize daysBeforeMonth (isLeapYear (yearOfDays (t / 86400))) m = bm
  generalize daysBeforeYear (yearOfDays (t / 86400)) = byr
  omega

theorem monthOfYearDay_table : ∀ (leap : Bool) (m : Nat), m < 13 → ∀ d : Nat, d < 32 →
    1 ≤ m → 1 ≤ d → d ≤ monthLength leap m →
      monthOfYearDay leap (daysBeforeMonth leap ((m : Int) - 1) + ((d : Int) - 1)) = (m : Int) - 1 := by
  decide

theorem yearDay_nonneg : ∀ (leap : Bool) (m : Nat), m < 13 → ∀ d : Nat, d < 32 →
    1 ≤ m → 1 ≤ d → d ≤ monthLength leap m →
      0 ≤ daysBeforeMonth leap ((m : Int) - 1) + ((d : Int) - 1) := by
  decide

theorem yearDay_lt : ∀ (leap : Bool) (m : Nat), m < 13 → ∀ d : Nat, d < 32 →
    1 ≤ m → 1 ≤ d → d ≤ monthLength leap m →
      daysBeforeMonth leap ((m : Int) - 1) + ((d : Int) - 1)
        < 365 + (if leap then 1 else 0) := by
  decide

theorem monthLength_le (leap : Bool) (m : Nat) : monthLength leap m ≤ 31 := by
  unfold monthLength
  split
  · split <;> omega
  · split <;> omega

theorem gmtime_getTimestampYMD (y m d h mi s : Nat) (hv : ValidDate y m d)
    (hh : h < 24) (hmi : mi < 60) (hs : s < 60) :
    gmtime (getTimestampYMD y m d h mi s)
      = { tm_sec := s, tm_min := mi, tm_hour := h, tm_mday := d, tm_mon := (m : Int) - 1,
          tm_year := (y : Int) - 1900,
          tm_wday := (daysBeforeYear y + daysBeforeMonth (isLeapYear y) ((m : Int) - 1)
            + ((d : Int) - 1) + 4) % 7 } := by
  obtain ⟨hm1, hm2, hd1, hd2⟩ := hv
  have hd31 : d < 32 := by
    have := monthLength_le (isLeapYear y) m
    unfold daysInMonth at hd2
    omega
  have e1 : ((y : Int) - 1900 + 1900 + ((m : Int) - 1) / 12) = y := by omega
  have e2 : ((m : Int) - 1) % 12 = (m : Int) - 1 := by omega
  have hr0 := yearDay_nonneg (isLeapYear y) m (by omega) d hd31 hm1 hd1 hd2
  have hr := yearDay_lt (isLeapYear y) m (by omega) d hd31 hm1 hd1 hd2
  have ht := monthOfYearDay_table (isLeapYear y) m (by omega) d hd31 hm1 hd1 hd2
  have hsucc := daysBeforeYear_succ (y : Int)
  simp only [getTimestampYMD, mktime, e1, e2]
  generalize hbm : daysBeforeMonth (isLeapYear (y : Int)) ((m : Int) - 1) = bm at hr0 hr ht ⊢
  generalize hby : daysBeforeYear (y : Int) = byr at hsucc ⊢
  have hdays : ((byr + bm + ((d : Int) - 1)) * 86400 + (h : Int) * 3600 + (mi : Int) * 60 + s)
      / 86400 = byr + bm + ((d : Int) - 1) := by omega
  have hrem : ((byr + bm + ((d : Int) - 1)) * 86400 + (h : Int) * 3600 + (mi : Int) * 60 + s)
      % 86400 = (h : Int) * 3600 + (mi : Int) * 60 + s := by omega
  have hyear : yearOfDays (byr + bm + ((d : Int) - 1)) = y := by
    apply yearOfDays_eq
    · rw [hby]; omega
    · rw [hsucc]
      split <;> simp_all <;> omega
  simp only [gmtime, hdays, hrem, hyear, hby, hbm]
  have hyd : byr + bm + ((d : Int) - 1) - byr = bm + ((d : Int) - 1) := by ring
  rw [hyd, ht]
  simp only [hbm]
  congr 1 <;> omega

/-! ## The tokenizer and its reference -/

theorem segments_intercalate (delim : Char) (str : List Char) :
    List.intercalate [delim] (segments delim str) = str := by
  induction str with
  | nil => simp [segments, List.intercalate]
  | cons c cs ih =>
    by_cases hc : c = delim
    · obtain ⟨seg, rest, e⟩ := List.exists_cons_of_ne_nil (segments_ne_nil delim cs)
      rw [e] at ih
      simp only [segments, hc, if_true, e]
      simp only [List.intercalate, List.intersperse, List.flatten] at ih ⊢
      simp [ih]
    · obtain ⟨seg, rest, e⟩ := List.exists_cons_of_ne_nil (segments_ne_nil delim cs)
      rw [e] at ih
      simp only [segments, hc, if_false, e]
      cases rest with
      | nil =>
        simp only [List.intercalate, List.intersperse, List.flatten] at ih ⊢
        simpa using ih
      | cons r rs =>
        simp only [List.intercalate, List.intersperse, List.flatten] at ih ⊢
        simpa using ih

theorem segments_not_mem (delim : Char) (str : List Char) :
    ∀ seg ∈ segments delim str, delim ∉ seg := by
  induction str with
  | nil => simp [segments]
  | cons c cs ih =>
    by_cases hc : c = delim
    · simp only [segments, hc, if_true]
      intro seg hseg
      rcases List.mem_cons.1 hseg with rfl | h
      · simp
      · exact ih seg h
    · obtain ⟨seg0, rest, e⟩ := List.exists_cons_of_ne_nil (segments_ne_nil delim cs)
      rw [e] at ih
      simp only [segments, hc, if_false, e]
      intro seg hseg
      rcases List.mem_cons.1 hseg with rfl | h
      · have := ih seg0 (by simp)
        simp [this, Ne.symm hc]
      · exact ih seg (List.mem_cons_of_mem _ h)

theorem tokens_ne_nil (delim : Char) (str : List Char) : ∀ t ∈ tokens delim str, t ≠ [] := by
  intro t ht
  simp only [tokens, List.mem_filter, decide_eq_true_eq] at ht
  exact List.length_pos.1 ht.2

theorem tokens_nil (delim : Char) : tokens delim [] = [] := by
  simp [tokens, segments, trim]

/-! ## The fields of the parser -/

theorem timeFields_eq (t : List Char) :
    timeFields t
      = (if (splitToken t [] ':').length = 3 then atoi ((splitToken t [] ':').getD 0 []) else 0,
         if (splitToken t [] ':').length = 3 then atoi ((splitToken t [] ':').getD 1 []) else 0,
         if (splitToken t [] ':').length = 3 then atoi ((splitToken t [] ':').getD 2 []) else 0) := by
  unfold timeFields
  split
  · rename_i a b c h
    simp [h]
  · rename_i h
    have hl : (splitToken t [] ':').length ≠ 3 := by
      intro h3
      match hs : splitToken t [] ':', h3 with
      | [a, b, c], _ => exact h a b c hs
    simp [hl]

theorem fromTokens_eq_fromFields (d m y t z : List Char) (gmt : Bool) :
    fromTokens d m y t z gmt
      = fromFields (atoi d) (monthIndex m) (yearValue y) (timeFields t) z gmt := by
  simp only [fromTokens, fromFields, yearValue, timeFields_eq]

theorem timeFields_of_length_ne (t : List Char) (h : (splitToken t [] ':').length ≠ 3) :
    timeFields t = (0, 0, 0) := by
  rw [timeFields_eq]
  simp [h]

theorem timeFields_of_eq (t a b c : List Char) (h : splitToken t [] ':' = [a, b, c]) :
    timeFields t = (atoi a, atoi b, atoi c) := by
  simp [timeFields, h]

/-- The five field tokens of a string with at least five tokens, and what the parser
returns. -/
theorem getTimestamp_fields (s : List Char) (h5 : 5 ≤ (splitToken s [] ' ').length) :
    ∃ d m y t z, fieldToken s 1 = some d ∧ fieldToken s 2 = some m ∧ fieldToken s 3 = some y
      ∧ fieldToken s 4 = some t ∧ fieldToken s 5 = some z
      ∧ (∀ gmt, getTimestamp s gmt = some (fromTokens d m y t z gmt))
      ∧ (∀ s' gmt, ∀ d', ReplacesField s s' 1 d' →
          getTimestamp s' gmt = some (fromTokens d' m y t z gmt))
      ∧ (∀ s' gmt, ∀ m', ReplacesField s s' 2 m' →
          getTimestamp s' gmt = some (fromTokens d m' y t z gmt))
      ∧ (∀ s' gmt, ∀ y', ReplacesField s s' 3 y' →
          getTimestamp s' gmt = some (fromTokens d m y' t z gmt))
      ∧ (∀ s' gmt, ∀ t', ReplacesField s s' 4 t' →
          getTimestamp s' gmt = some (fromTokens d m y t' z gmt)) := by
  rcases Nat.eq_or_lt_of_le h5 with h | h
  · obtain ⟨d, m, y, t, z, e⟩ := length_eq_five _ h.symm
    refine ⟨d, m, y, t, z, ?_, ?_, ?_, ?_, ?_, fun gmt => getTimestamp_five s d m y t z gmt e,
      ?_, ?_, ?_, ?_⟩
    all_goals first
      | (simp [fieldToken, e, tokenAt]; done)
      | (intro s' gmt x hx
         simp only [ReplacesField, e] at hx
         exact getTimestamp_five s' _ _ _ _ _ gmt (by simpa using hx))
  · obtain ⟨w, d, m, y, t, z, rest, e⟩ := length_ge_six _ h
    refine ⟨d, m, y, t, z, ?_, ?_, ?_, ?_, ?_,
      fun gmt => getTimestamp_six s w d m y t z rest gmt e, ?_, ?_, ?_, ?_⟩
    all_goals first
      | (simp [fieldToken, e, tokenAt]; done)
      | (intro s' gmt x hx
         simp only [ReplacesField, e] at hx
         exact getTimestamp_six s' w _ _ _ _ _ rest gmt (by simpa using hx))


theorem yearValue_prepend (y : List Char) (h : y.length = 2) :
    yearValue ("20".toList ++ y) = yearValue y := by
  have h4 : ("20".toList ++ y).length ≠ 2 := by
    simp [h]
  simp only [yearValue, h, if_true]
  rw [if_neg h4]

theorem yearValue_of_length_ne (y : List Char) (h : y.length ≠ 2) : yearValue y = atoi y := by
  simp [yearValue, h]

theorem monthIndex_unique : ∀ i : Nat, i < 12 → ∀ j : Nat, j < 12 →
    mb_months.getD i [] = mb_months.getD j [] → i = j := by
  decide

theorem monthIndex_of_eq (tok : List Char) (i : Nat) (hi : i < 12)
    (h : mb_months.getD i [] = tok) : monthIndex tok = (i : Int) := by
  rw [← h]
  exact monthIndex_table i hi

theorem monthIndex_of_no_match (tok : List Char)
    (h : ∀ i : Nat, i < 12 → mb_months.getD i [] ≠ tok) : monthIndex tok = 0 := by
  have h0 := h 0 (by decide)
  have h1 := h 1 (by decide)
  have h2 := h 2 (by decide)
  have h3 := h 3 (by decide)
  have h4 := h 4 (by decide)
  have h5 := h 5 (by decide)
  have h6 := h 6 (by decide)
  have h7 := h 7 (by decide)
  have h8 := h 8 (by decide)
  have h9 := h 9 (by decide)
  have h10 := h 10 (by decide)
  have h11 := h 11 (by decide)
  simp only [monthIndex, List.range, List.range.loop, List.foldl, if_neg h0, if_neg h1,
    if_neg h2, if_neg h3, if_neg h4, if_neg h5, if_neg h6, if_neg h7, if_neg h8, if_neg h9,
    if_neg h10, if_neg h11]

theorem getTimestamp_isSome (s : List Char) (gmt : Bool) : ∃ ts, getTimestamp s gmt = some ts := by
  by_cases h5 : 5 ≤ (splitToken s [] ' ').length
  · obtain ⟨d, m, y, t, z, _, _, _, _, _, h, _⟩ := getTimestamp_fields s h5
    exact ⟨_, h gmt⟩
  · exact ⟨0, getTimestamp_short s gmt (by omega)⟩

theorem adjustTimeZoneChecked_eq (ts : Int) (tz : List Char) (gmt : Bool) :
    adjustTimeZoneChecked ts tz gmt = some (adjustTimeZone ts tz gmt) := by
  unfold adjustTimeZoneChecked adjustTimeZone
  by_cases h : tz.length = 5
  · match tz, h with
    | [c0, c1, c2, c3, c4], _ =>
      cases gmt
      · simp
      · by_cases hp : c0 = '+' <;> simp [hp]
  · simp [h]

/-! ## The sync gate, the dispatch and the invariant of the clock -/

theorem setClock_configTime_iff (self : MB_Time) (env : Readings) (g d : ℚ)
    (servers : List Char) :
    (setClock self env g d servers).2.1.isSome = true
      ↔ Elapsed self env.millisGate ∧ env.time < 1577836800 := by
  rw [setClock_configTime]
  simp [syncDue, Elapsed, ESP_TIME_DEFAULT_TS]

theorem setClock_readyCleared (self : MB_Time) (env : Readings) (g d : ℚ)
    (servers : List Char) : ReadyCleared (setClock self env g d servers).1 := by
  simp only [setClock, ReadyCleared]
  split <;> split <;> simp_all [clearServers]

theorem clockReady_readyCleared (self : MB_Time) (time : Int) :
    ReadyCleared (clockReady self time).1 := by
  simp only [clockReady, ReadyCleared]
  split <;> simp_all [clearServers]

theorem step_readyCleared (self : MB_Time) (c : Call) (h : ReadyCleared self) :
    ReadyCleared (step self c) := by
  cases c with
  | setClock env g d servers => exact setClock_readyCleared self env g d servers
  | clockReady time => exact clockReady_readyCleared self time
  | getCurrentTimestamp time localTime => exact h
  | getDateTimeString time localTime => exact h
  | getTimestamp s gmt => exact h
  | getTimestampYMD y mo da ho mi se => exact h

theorem run_readyCleared (calls : List Call) :
    ∀ self : MB_Time, ReadyCleared self → ReadyCleared (run self calls) := by
  induction calls with
  | nil => intro self h; exact h
  | cons c cs ih =>
    intro self h
    exact ih (step self c) (step_readyCleared self c h)

theorem dispatchServers_keeps (self : MB_Time) (tk : List (List Char))
    (htk : ∀ t ∈ tk, t ≠ []) :
    (self._sv1 ≠ [] → (dispatchServers self tk).1._sv1 ≠ [])
      ∧ (self._sv2 ≠ [] → (dispatchServers self tk).1._sv2 ≠ [])
      ∧ (self._sv3 ≠ [] → (dispatchServers self tk).1._sv3 ≠ []) := by
  unfold dispatchServers
  split
  · rename_i a
    exact ⟨fun _ => htk a (by simp), fun h => h, fun h => h⟩
  · rename_i a b
    exact ⟨fun _ => htk a (by simp), fun _ => htk b (by simp), fun h => h⟩
  · rename_i a b c
    exact ⟨fun _ => htk a (by simp), fun _ => htk b (by simp), fun _ => htk c (by simp)⟩
  · exact ⟨fun h => h, fun h => h, fun h => h⟩

theorem splitToken_ne_nil (str : List Char) (delim : Char) :
    ∀ t ∈ splitToken str [] delim, t ≠ [] := by
  intro t ht
  rw [splitToken_eq, List.nil_append] at ht
  simp only [tokens, List.mem_filter, decide_eq_true_eq] at ht
  exact List.length_pos.1 ht.2

theorem setClock_servers (self : MB_Time) (env : Readings) (g d : ℚ) (servers : List Char)
    (h : (setClock self env g d servers).2.2 = false) :
    ((setClock self env g d servers).1._sv1 = self._sv1
        ∧ (setClock self env g d servers).1._sv2 = self._sv2
        ∧ (setClock self env g d servers).1._sv3 = self._sv3)
      ∨ ∃ st : MB_Time, st._sv1 = self._sv1 ∧ st._sv2 = self._sv2 ∧ st._sv3 = self._sv3
        ∧ (setClock self env g d servers).1._sv1
            = (dispatchServers st (splitToken servers [] ',')).1._sv1
        ∧ (setClock self env g d servers).1._sv2
            = (dispatchServers st (splitToken servers [] ',')).1._sv2
        ∧ (setClock self env g d servers).1._sv3
            = (dispatchServers st (splitToken servers [] ',')).1._sv3 := by
  have hres := setClock_result self env g d servers
  have hnow := setClock_now self env g d servers
  have hcfg := setClock_configTime self env g d servers
  rw [h] at hres
  by_cases hsd : syncDue { self with TZ := g, DST_MN := d, now := env.time }
      env.millisGate false = true
  · rw [hsd] at hcfg
    rw [hcfg, if_pos rfl] at hnow
    rw [hnow] at hres
    have hr : ¬ env.timeAfterSync > ESP_TIME_DEFAULT_TS := by
      intro hgt
      simp [hgt] at hres
    right
    refine ⟨{ self with TZ := g, DST_MN := d, now := env.time,
                        lastSyncMillis := env.millisSync % 4294967296 }, rfl, rfl, rfl, ?_⟩
    simp [setClock, hsd, hr]
  · simp only [Bool.not_eq_true] at hsd
    rw [hsd] at hcfg
    rw [hcfg] at hnow
    simp only [Bool.false_eq_true, if_false] at hnow
    rw [hnow] at hres
    have hr : ¬ env.time > ESP_TIME_DEFAULT_TS := by
      intro hgt
      simp [hgt] at hres
    left
    simp [setClock, hsd, hr]

theorem setClock_keeps (self : MB_Time) (env : Readings) (g d : ℚ) (servers : List Char)
    (h : (setClock self env g d servers).2.2 = false) :
    (self._sv1 ≠ [] → (setClock self env g d servers).1._sv1 ≠ [])
      ∧ (self._sv2 ≠ [] → (setClock self env g d servers).1._sv2 ≠ [])
      ∧ (self._sv3 ≠ [] → (setClock self env g d servers).1._sv3 ≠ []) := by
  rcases setClock_servers self env g d servers h with ⟨h1, h2, h3⟩ | ⟨st, e1, e2, e3, h1, h2, h3⟩
  · rw [h1, h2, h3]
    exact ⟨fun x => x, fun x => x, fun x => x⟩
  · have hk := dispatchServers_keeps st (splitToken servers [] ',')
      (splitToken_ne_nil servers ',')
    rw [h1, h2, h3, ← e1, ← e2, ← e3]
    exact hk

theorem clockReady_keeps (self : MB_Time) (time : Int) (h : (clockReady self time).2 = false) :
    (clockReady self time).1._sv1 = self._sv1 ∧ (clockReady self time).1._sv2 = self._sv2
      ∧ (clockReady self time).1._sv3 = self._sv3 := by
  by_cases hr : time > ESP_TIME_DEFAULT_TS
  · have ht : (clockReady self time).2 = true := by simp [clockReady, hr, clearServers]
    rw [ht] at h
    cases h
  · simp [clockReady, hr, clearServers]

/-! ## Decimal text -/

theorem isDigit_digitChar_mod (n : Nat) : isDigit (digitChar (n % 10)) = true :=
  isDigit_digitChar _ (Nat.mod_lt _ (by decide))

theorem atoiDigits_digitChar (d : Nat) (hd : d < 10) (rest : List Char) (a : Int) :
    atoiDigits (digitChar d :: rest) a = atoiDigits rest (a * 10 + d) := by
  simp [atoiDigits, isDigit_digitChar d hd, digitChar_toNat d hd]

theorem decimalAux_spec (fuel : Nat) :
    ∀ (n : Nat) (acc : List Char), n < fuel →
      ∃ ds : List Char, decimalAux fuel n acc = ds ++ acc ∧ ds ≠ []
        ∧ (∀ c ∈ ds, isDigit c = true)
        ∧ (∀ (a : Int) (rest : List Char),
            atoiDigits (ds ++ rest) a = atoiDigits rest (a * 10 ^ ds.length + n)) := by
  induction fuel with
  | zero => intro n acc h; omega
  | succ f ih =>
    intro n acc h
    unfold decimalAux
    by_cases h0 : n / 10 = 0
    · rw [if_pos h0]
      refine ⟨[digitChar (n % 10)], rfl, by simp, ?_, ?_⟩
      · intro c hc
        rw [List.mem_singleton.1 hc]
        exact isDigit_digitChar_mod n
      · intro a rest
        have : n % 10 = n := by omega
        simp only [List.singleton_append, List.length_singleton, pow_one]
        rw [atoiDigits_digitChar _ (Nat.mod_lt _ (by decide)), this]
    · rw [if_neg h0]
      obtain ⟨ds, e, hne, hdig, hval⟩ := ih (n / 10) (digitChar (n % 10) :: acc) (by omega)
      refine ⟨ds ++ [digitChar (n % 10)], by rw [e]; simp, by simp, ?_, ?_⟩
      · intro c hc
        rcases List.mem_append.1 hc with h1 | h1
        · exact hdig c h1
        · rw [List.mem_singleton.1 h1]
          exact isDigit_digitChar_mod n
      · intro a rest
        rw [List.append_assoc, hval, List.singleton_append,
          atoiDigits_digitChar _ (Nat.mod_lt _ (by decide))]
        congr 1
        rw [List.length_append, List.length_singleton, pow_succ]
        have : ((n / 10 : Nat) : Int) * 10 + ((n % 10 : Nat) : Int) = n := by omega
        push_cast at this ⊢
        linarith

theorem intText_natCast (n : Nat) : intText (n : Int) = decimalAux (n + 1) n [] := by
  simp [intText]

theorem intText_nat_spec (n : Nat) :
    intText (n : Int) ≠ [] ∧ (∀ c ∈ intText (n : Int), isDigit c = true)
      ∧ atoi (intText (n : Int)) = n := by
  obtain ⟨ds, e, hne, hdig, hval⟩ := decimalAux_spec (n + 1) n [] (by omega)
  rw [intText_natCast, e, List.append_nil]
  refine ⟨hne, hdig, ?_⟩
  obtain ⟨c, cs, rfl⟩ := List.exists_cons_of_ne_nil hne
  have hc := hdig c (by simp)
  have hv := hval 0 []
  simp only [List.append_nil, zero_mul, zero_add] at hv
  simp only [atoi, List.dropWhile, isSpace_of_isDigit c hc, ne_minus_of_isDigit c hc,
    ne_plus_of_isDigit c hc, if_false]
  rw [hv]
  simp [atoiDigits]

theorem noSpace_of_isDigit (ds : List Char) (h : ∀ c ∈ ds, isDigit c = true) : NoSpace ds :=
  fun c hc => isSpace_of_isDigit c (h c hc)

theorem noSpace_intText (n : Int) : NoSpace (intText n) ∧ intText n ≠ [] := by
  unfold intText
  obtain ⟨ds, e, hne, hdig, _⟩ := decimalAux_spec (n.natAbs + 1) n.natAbs [] (by omega)
  rw [e, List.append_nil]
  split
  · exact ⟨noSpace_cons _ _ (by decide) (noSpace_of_isDigit ds hdig), by simp⟩
  · exact ⟨noSpace_of_isDigit ds hdig, hne⟩

theorem intText_fourDigits (n : Nat) (h1 : 1000 ≤ n) (h2 : n ≤ 9999) :
    intText (n : Int) = fourDigits n := by
  rw [intText_natCast]
  obtain ⟨k, hk⟩ : ∃ k, n + 1 = k + 4 := ⟨n - 3, by omega⟩
  rw [hk]
  have a1 : ¬ n / 10 = 0 := by omega
  have a2 : ¬ n / 10 / 10 = 0 := by omega
  have a3 : ¬ n / 10 / 10 / 10 = 0 := by omega
  have a4 : n / 10 / 10 / 10 / 10 = 0 := by omega
  have b2 : n / 10 / 10 = n / 100 := by omega
  have b3 : n / 10 / 10 / 10 = n / 1000 := by omega
  have c2 : ¬ n / 100 = 0 := by omega
  have c3 : ¬ n / 100 / 10 = 0 := by omega
  have c4 : n / 100 / 10 / 10 = 0 := by omega
  have d3 : n / 100 / 10 = n / 1000 := by omega
  simp only [decimalAux, a1, a2, a3, a4, if_true, if_false, fourDigits, b2, b3, c2, c3, c4]
  rw [d3]

/-! ## The formatter read back by the parser -/

theorem getTimestampYMD_tm (x : tm) :
    getTimestampYMD (x.tm_year + 1900) (x.tm_mon + 1) x.tm_mday x.tm_hour x.tm_min x.tm_sec
      = mktime x := by
  simp [getTimestampYMD, mktime]

theorem noSpace_sdow : ∀ i : Nat, i < 7 → ∀ c ∈ mb_sdow.getD i [], isSpace c = false := by
  decide

theorem noSpace_ite (p : Prop) [Decidable p] (a b : List Char) (ha : NoSpace a)
    (hb : NoSpace b) : NoSpace (if p then a else b) := by
  split
  · exact ha
  · exact hb

theorem timeZoneText_token (TZ : ℚ) :
    ∃ z, timeZoneText TZ = ' ' :: z ∧ NoSpace z ∧ z ≠ [] := by
  have h0 := (noSpace_intText 0).1
  have hsign : isSpace (if TZ < 0 then '-' else '+') = false := by
    split <;> decide
  refine ⟨(timeZoneText TZ).tail, ?_, ?_, ?_⟩
  · simp only [timeZoneText, List.append_assoc, List.singleton_append, List.cons_append,
      List.nil_append, List.tail_cons]
  · simp only [timeZoneText, List.append_assoc, List.singleton_append, List.cons_append,
      List.nil_append, List.tail_cons]
    exact noSpace_cons _ _ hsign
      (noSpace_append _ _ (noSpace_ite _ _ _ h0 noSpace_nil)
        (noSpace_append _ _ (noSpace_intText _).1
          (noSpace_append _ _ (noSpace_ite _ _ _ h0 noSpace_nil) (noSpace_intText _).1)))
  · simp [timeZoneText]

theorem dateTimeString_parse (w mon z : List Char) (D Y H M S mi : Nat)
    (hw : NoSpace w) (hmon : mon = mb_months.getD mi []) (hmi : mi < 12)
    (hY1 : 1000 ≤ Y) (hY2 : Y ≤ 9999) (hH : H < 100) (hM : M < 100) (hS : S < 100)
    (hz : NoSpace z) (hz0 : z ≠ []) :
    splitToken
        (w ++ [','] ++ [' '] ++ intText (D : Int) ++ [' '] ++ mon ++ [' '] ++ intText (Y : Int)
          ++ [' '] ++ (if (H : Int) < 10 then intText 0 else []) ++ intText (H : Int)
          ++ [':'] ++ (if (M : Int) < 10 then intText 0 else []) ++ intText (M : Int)
          ++ [':'] ++ (if (S : Int) < 10 then intText 0 else []) ++ intText (S : Int)
          ++ (' ' :: z)) [] ' '
      = [w ++ [','], intText (D : Int), mon, intText (Y : Int),
          twoDigits H ++ ':' :: (twoDigits M ++ ':' :: twoDigits S), z]
    ∧ getTimestamp
        (w ++ [','] ++ [' '] ++ intText (D : Int) ++ [' '] ++ mon ++ [' '] ++ intText (Y : Int)
          ++ [' '] ++ (if (H : Int) < 10 then intText 0 else []) ++ intText (H : Int)
          ++ [':'] ++ (if (M : Int) < 10 then intText 0 else []) ++ intText (M : Int)
          ++ [':'] ++ (if (S : Int) < 10 then intText 0 else []) ++ intText (S : Int)
          ++ (' ' :: z)) false
      = some (getTimestampYMD Y ((mi : Int) + 1) D H M S) := by
  have e : w ++ [','] ++ [' '] ++ intText (D : Int) ++ [' '] ++ mon ++ [' '] ++ intText (Y : Int)
          ++ [' '] ++ (if (H : Int) < 10 then intText 0 else []) ++ intText (H : Int)
          ++ [':'] ++ (if (M : Int) < 10 then intText 0 else []) ++ intText (M : Int)
          ++ [':'] ++ (if (S : Int) < 10 then intText 0 else []) ++ intText (S : Int)
          ++ (' ' :: z)
      = (w ++ [',']) ++ ' ' :: (intText (D : Int) ++ ' ' :: (mon ++ ' ' :: (intText (Y : Int)
          ++ ' ' :: ((twoDigits H ++ ':' :: (twoDigits M ++ ':' :: twoDigits S))
            ++ ' ' :: z)))) := by
    rw [← pad_intText H hH, ← pad_intText M hM, ← pad_intText S hS]
    simp only [List.append_assoc, List.singleton_append, List.cons_append, List.nil_append]
  have hD := intText_nat_spec D
  have hYs := intText_nat_spec Y
  have hmonNS : NoSpace mon := by rw [hmon]; exact noSpace_month mi hmi
  have hmon0 : mon ≠ [] := by
    intro h0
    have := length_month mi hmi
    rw [← hmon, h0] at this
    cases this
  have htok : splitToken
        (w ++ [','] ++ [' '] ++ intText (D : Int) ++ [' '] ++ mon ++ [' '] ++ intText (Y : Int)
          ++ [' '] ++ (if (H : Int) < 10 then intText 0 else []) ++ intText (H : Int)
          ++ [':'] ++ (if (M : Int) < 10 then intText 0 else []) ++ intText (M : Int)
          ++ [':'] ++ (if (S : Int) < 10 then intText 0 else []) ++ intText (S : Int)
          ++ (' ' :: z)) [] ' '
      = [w ++ [','], intText (D : Int), mon, intText (Y : Int),
          twoDigits H ++ ':' :: (twoDigits M ++ ':' :: twoDigits S), z] := by
    rw [splitToken_eq, e, List.nil_append,
      tokens_cons_noSpace _ _ (noSpace_append _ _ hw (noSpace_cons _ _ (by decide) noSpace_nil))
        (by simp),
      tokens_cons_noSpace _ _ (noSpace_intText _).1 (noSpace_intText _).2,
      tokens_cons_noSpace _ _ hmonNS hmon0,
      tokens_cons_noSpace _ _ (noSpace_intText _).1 (noSpace_intText _).2,
      tokens_cons_noSpace _ _ (noSpace_time H M S) (by simp [twoDigits]),
      tokens_single_noSpace _ hz hz0]
  refine ⟨htok, ?_⟩
  rw [getTimestamp_six _ _ _ _ _ _ _ [] false htok]
  have hmi2 : monthIndex mon + 1 = (mi : Int) + 1 := by
    rw [hmon, monthIndex_table mi hmi]
  have hlen : ¬ (intText (Y : Int)).length = 2 := by
    rw [intText_fourDigits Y hY1 hY2]
    simp [fourDigits]
  unfold fromTokens
  simp only [splitToken_time, adjustTimeZone_false, hmi2, hlen, if_false, hD.2.2, hYs.2.2]
  simp [atoi_twoDigits, hH, hM, hS]


theorem yearOfDays_ge (days : Int) (h : 0 ≤ days) : 1970 ≤ yearOfDays days := by
  have hs := yearOfDays_spec days
  by_contra hlt
  have hm := daysBeforeYear_mono (yearOfDays days + 1) 1970 (by omega)
  have h0 : daysBeforeYear 1970 = 0 := by decide
  omega

theorem gmtime_ranges (t : Int) (ht : 0 ≤ t) :
    0 ≤ (gmtime t).tm_wday ∧ (gmtime t).tm_wday < 7
    ∧ 0 ≤ (gmtime t).tm_mon ∧ (gmtime t).tm_mon < 12
    ∧ 1 ≤ (gmtime t).tm_mday
    ∧ 0 ≤ (gmtime t).tm_hour ∧ (gmtime t).tm_hour < 24
    ∧ 0 ≤ (gmtime t).tm_min ∧ (gmtime t).tm_min < 60
    ∧ 0 ≤ (gmtime t).tm_sec ∧ (gmtime t).tm_sec < 60
    ∧ 1970 ≤ (gmtime t).tm_year + 1900 := by
  have hy := yearOfDays_spec (t / 86400)
  have hm := monthOfYearDay_spec (isLeapYear (yearOfDays (t / 86400)))
    (t / 86400 - daysBeforeYear (yearOfDays (t / 86400))) (by omega)
  have hge := yearOfDays_ge (t / 86400) (by omega)
  simp only [gmtime]
  refine ⟨by omega, by omega, hm.1, hm.2.1, by omega, by omega, by omega, by omega, by omega,
    by omega, by omega, by omega⟩

theorem tokenAt_getD (l : List (List Char)) (i : Nat) (h : i < l.length) :
    tokenAt l (i : Int) = some (l.getD i []) := by
  simp [tokenAt, List.getElem?_eq_getElem h, List.getD_eq_getElem?_getD]

/-! ## The claims -/

/-- Claim C1. With the platform `mktime` taken as UTC, `getTimestamp(timeString, true)`
applied to the weekday-prefixed header date "<dow>, DD Mon YYYY HH:MM:SS +0000" of a valid
date and time (a year of four digits) returns the epoch seconds of that UTC instant, counted
from 1970-01-01T00:00:00Z. -/
theorem getTimestamp_headerDate_utc (dow : List Char) (y m d h mi s : Nat)
    (hdow : NoSpace dow) (hv : ValidDate y m d) (hy : y ≤ 9999)
    (hh : h < 24) (hmi : mi < 60) (hs : s < 60) :
    getTimestamp (headerDate dow y m d h mi s) true = some (utcSeconds y m d h mi s) := by
  have hd : d < 100 := by
    have := hv.2.2.2
    have hle : daysInMonth y m ≤ 31 := by
      unfold daysInMonth monthLength
      split
      · split <;> omega
      · split <;> omega
    omega
  rw [getTimestamp_six _ _ _ _ _ _ _ [] true
      (splitToken_headerDate dow y m d h mi s hdow hv.1 hv.2.1),
    fromTokens_headerDate y m d h mi s hv.1 hv.2.1 (by omega) hd (by omega) (by omega)
      (by omega),
    getTimestampYMD_eq_utcSeconds y m d h mi s hv]

/-- Witness of C1: "Mon, 02 May 2022 00:30:00 +0000" yields 1651451400. -/
theorem getTimestamp_headerDate_utc_witness :
    headerDate "Mon".toList 2022 5 2 0 30 0 = "Mon, 02 May 2022 00:30:00 +0000".toList
    ∧ utcSeconds 2022 5 2 0 30 0 = 1651451400
    ∧ getTimestamp "Mon, 02 May 2022 00:30:00 +0000".toList true = some 1651451400 := by
  have h := getTimestamp_headerDate_utc "Mon".toList 2022 5 2 0 30 0 (by decide)
    (by decide) (by decide) (by decide) (by decide) (by decide)
  have e1 : headerDate "Mon".toList 2022 5 2 0 30 0
      = "Mon, 02 May 2022 00:30:00 +0000".toList := by decide
  have e2 : utcSeconds 2022 5 2 0 30 0 = 1651451400 := by decide
  rw [e1, e2] at h
  exact ⟨e1, e2, h⟩

/-- Claim C2. The weekday token is decorative: when `s` splits on spaces into exactly 5 tokens
and `w` is a non-empty token without white space, `getTimestamp(w + " " + s, gmt)` equals
`getTimestamp(s, gmt)`, for both values of `gmt`. -/
theorem getTimestamp_weekday_decorative (s w : List Char) (gmt : Bool)
    (h5 : (splitToken s [] ' ').length = 5) (hw : w ≠ []) (hns : NoSpace w) :
    getTimestamp (w ++ ' ' :: s) gmt = getTimestamp s gmt := by
  obtain ⟨d, m, y, t, z, e⟩ := length_eq_five _ h5
  have hlen : 0 < w.length := List.length_pos.2 hw
  have e6 : splitToken (w ++ ' ' :: s) [] ' ' = [w, d, m, y, t, z] := by
    rw [splitToken_eq] at e ⊢
    simp only [List.nil_append] at e ⊢
    rw [tokens_append ' ' w s (not_mem_space_of_noSpace w hns), trim_of_noSpace w hns, e]
    simp [hlen]
  rw [getTimestamp_six _ w d m y t z [] gmt e6, getTimestamp_five s d m y t z gmt e]

/-- Witness of C2: "Mon, 02 May 2022 00:30:00 +0000" against "02 May 2022 00:30:00 +0000". -/
theorem getTimestamp_weekday_decorative_witness :
    getTimestamp "Mon, 02 May 2022 00:30:00 +0000".toList true
      = getTimestamp "02 May 2022 00:30:00 +0000".toList true :=
  getTimestamp_weekday_decorative "02 May 2022 00:30:00 +0000".toList "Mon,".toList true
    (by decide) (by decide) (by decide)

/-- Claim C3. Time zone normalisation: when the string has at least 5 tokens and the token at
the time zone position is a sign followed by four digits HHMM, `getTimestamp(s, true)` is
`getTimestamp(s, false)` minus `HH*3600 + MM*60` for the sign `+`, and plus that amount for
the sign `-`. -/
theorem getTimestamp_gmt_normalises (s : List Char) (sg a b c d : Char)
    (h5 : 5 ≤ (splitToken s [] ' ').length)
    (hz : timeZoneToken s = some [sg, a, b, c, d])
    (ha : isDigit a = true) (hb : isDigit b = true) (hc : isDigit c = true)
    (hd : isDigit d = true) :
    ∃ ts, getTimestamp s false = some ts
      ∧ (sg = '+' → getTimestamp s true
          = some (ts - ((10 * digitValue a + digitValue b) * 3600
              + (10 * digitValue c + digitValue d) * 60)))
      ∧ (sg = '-' → getTimestamp s true
          = some (ts + ((10 * digitValue a + digitValue b) * 3600
              + (10 * digitValue c + digitValue d) * 60))) := by
  obtain ⟨ts, z, e1, e2, e3⟩ := getTimestamp_adjust s h5
  rw [hz] at e1
  cases e1
  rw [adjustTimeZone_wellFormed ts sg a b c d ha hb hc hd] at e3
  refine ⟨ts, e2, ?_, ?_⟩
  · intro hs
    rw [e3, if_pos hs]
  · intro hs
    rw [e3, if_neg (by rw [hs]; decide)]

/-- Witness of C3: "02 May 22 00:30:00 +0500" is 18000 seconds earlier when normalised. -/
theorem getTimestamp_gmt_normalises_witness :
    ∃ ts, getTimestamp "02 May 22 00:30:00 +0500".toList false = some ts ∧
      getTimestamp "02 May 22 00:30:00 +0500".toList true = some (ts - 18000) := by
  obtain ⟨ts, h1, h2, _⟩ :=
    getTimestamp_gmt_normalises "02 May 22 00:30:00 +0500".toList '+' '0' '5' '0' '0'
      (by decide) (by decide) (by decide) (by decide) (by decide) (by decide)
  refine ⟨ts, h1, ?_⟩
  have h3 := h2 rfl
  have hv : ((10 * digitValue '0' + digitValue '5') * 3600
      + (10 * digitValue '0' + digitValue '0') * 60) = 18000 := by decide
  rw [hv] at h3
  exact h3

/-- Counterexample to C4 as stated: the time zone token "x0130" is not a sign followed by four
digits, yet `getTimestamp(s, true)` differs from `getTimestamp(s, false)` by 5400 seconds. -/
theorem getTimestamp_malformed_zone_adjusted :
    5 ≤ (splitToken "02 May 2022 00:30:00 x0130".toList [] ' ').length
    ∧ timeZoneToken "02 May 2022 00:30:00 x0130".toList = some "x0130".toList
    ∧ isTimeZone "x0130".toList = false
    ∧ getTimestamp "02 May 2022 00:30:00 x0130".toList false = some 1651451400
    ∧ getTimestamp "02 May 2022 00:30:00 x0130".toList true = some 1651456800
    ∧ getTimestamp "02 May 2022 00:30:00 x0130".toList true
        ≠ getTimestamp "02 May 2022 00:30:00 x0130".toList false := by
  decide

/-- Claim C4, amended. When the string has at least 5 tokens and the token at the time zone
position does not have exactly 5 characters, `getTimestamp(s, true)` equals
`getTimestamp(s, false)`. -/
theorem getTimestamp_unadjusted_unless_five_chars (s z : List Char)
    (h5 : 5 ≤ (splitToken s [] ' ').length)
    (hz : timeZoneToken s = some z) (hlen : z.length ≠ 5) :
    ∃ ts, getTimestamp s false = some ts ∧ getTimestamp s true = some ts := by
  obtain ⟨ts, z', e1, e2, e3⟩ := getTimestamp_adjust s h5
  rw [hz] at e1
  cases e1
  exact ⟨ts, e2, by rw [e3, adjustTimeZone_length ts z true hlen]⟩

/-- Witness of the amended C4: the time zone token "GMT". -/
theorem getTimestamp_unadjusted_unless_five_chars_witness :
    ∃ ts, getTimestamp "02 May 2022 00:30:00 GMT".toList false = some ts ∧
      getTimestamp "02 May 2022 00:30:00 GMT".toList true = some ts :=
  getTimestamp_unadjusted_unless_five_chars "02 May 2022 00:30:00 GMT".toList "GMT".toList
    (by decide) (by decide) (by decide)

/-- Claim C5. For every string that splits on spaces into fewer than 5 tokens,
`getTimestamp(timeString, gmt)` returns 0, for both values of `gmt`. -/
theorem getTimestamp_fewer_than_five_tokens (timeString : List Char) (gmt : Bool)
    (h : (splitToken timeString [] ' ').length < 5) :
    getTimestamp timeString gmt = some 0 :=
  getTimestamp_short timeString gmt h

/-- Witness of C5: the four tokens of "02 May 2022 00:30:00", and the empty string. -/
theorem getTimestamp_fewer_than_five_tokens_witness :
    getTimestamp "02 May 2022 00:30:00".toList true = some 0
    ∧ getTimestamp "".toList false = some 0 :=
  ⟨getTimestamp_fewer_than_five_tokens "02 May 2022 00:30:00".toList true (by decide),
    getTimestamp_fewer_than_five_tokens "".toList false (by decide)⟩

/-- Claim C6 at the offset -8.0: after `setClock(-8.0, 0)` the string of `getDateTimeString`
ends with the 6-character token "-0-800", which is not a sign followed by four digits. -/
theorem getDateTimeString_negative_offset :
    (getDateTimeString (setClock (init 0 unsetTime) (unsetReadings 1000) (-8) 0
        defaultServers).1 1651451400 sampleTime).2
      = some "Mon, 2 May 2022 00:30:00 -0-800".toList
    ∧ (splitToken "Mon, 2 May 2022 00:30:00 -0-800".toList [] ' ').getLast?
        = some "-0-800".toList
    ∧ isTimeZone "-0-800".toList = false := by
  refine ⟨?_, by decide, by decide⟩
  rw [getDateTimeString_pre, (setClock_offsets _ _ _ _ _).1, timeZoneText_neg_8]
  rfl

/-- Counterexample to C7 as stated: the offset 377487/65536 = 5.75999..., a `float` on which
the arithmetic of the code is exact, has 45.5996... minutes; rounded to the nearest integer
they are 46, and `getDateTimeString` ends with "+0545". -/
theorem getDateTimeString_minutes_not_rounded :
    (0 : ℚ) ≤ 377487 / 65536 ∧ (377487 / 65536 : ℚ) < 24
    ∧ fl32 (377487 / 65536) = 377487 / 65536
    ∧ timeZoneRounded (377487 / 65536) = "+0546".toList
    ∧ (splitToken "Mon, 2 May 2022 00:30:00 +0545".toList [] ' ').getLast?
        = some "+0545".toList
    ∧ "+0545".toList ≠ timeZoneRounded (377487 / 65536)
    ∧ (getDateTimeString { init 0 sampleTime with TZ := 377487 / 65536 } 1651451400
        sampleTime).2 = some "Mon, 2 May 2022 00:30:00 +0545".toList := by
  refine ⟨by norm_num, by norm_num, ?_, timeZoneRounded_377487, by decide,
    by rw [timeZoneRounded_377487]; decide, ?_⟩
  · simpa using fl32_sixteenths 377487 (by norm_num)
  rw [getDateTimeString_pre]
  simp only [init]
  rw [timeZoneText_377487]
  rfl

/-- Claim C7, amended. For every offset `0 ≤ TZ < 24` that is a whole multiple of `1/65536`
hour (every quarter-hour offset is one; on these the `float` and `double` operations of the
code are exact) the last token of the string of `getDateTimeString` is `+`, the integer part
of `TZ` on 2 digits, and the fractional part times 60 with its fraction discarded, on 2
digits. -/
theorem getDateTimeString_timeZone_truncated (self : MB_Time) (time : Int) (localTime : tm)
    (hq : ∃ n : Nat, self.TZ = (n : ℚ) / 65536) (h24 : self.TZ < 24)
    (hw0 : 0 ≤ localTime.tm_wday) (hw7 : localTime.tm_wday < 7)
    (hm0 : 0 ≤ localTime.tm_mon) (hm12 : localTime.tm_mon < 12) :
    ∃ s, (getDateTimeString self time localTime).2 = some s
      ∧ (splitToken s [] ' ').getLast? = some (timeZoneTruncated self.TZ) := by
  obtain ⟨pre, e⟩ := getDateTimeString_eq self time localTime hw0 hw7 hm0 hm12
  rw [timeZoneText_of_sixteenths self.TZ hq h24, ← List.append_assoc] at e
  exact ⟨_, e, splitToken_getLast pre _ (noSpace_timeZoneTruncated self.TZ)
    (by simp [timeZoneTruncated])⟩

/-- Witness of the amended C7: the offset 5.75 = 376832/65536 renders as "+0545". -/
theorem getDateTimeString_timeZone_truncated_witness :
    ∃ s, (getDateTimeString { init 0 sampleTime with TZ := 23 / 4 } 1651451400
        sampleTime).2 = some s
      ∧ (splitToken s [] ' ').getLast? = some "+0545".toList := by
  have h := getDateTimeString_timeZone_truncated
    { init 0 sampleTime with TZ := 23 / 4 } 1651451400 sampleTime
    ⟨376832, by norm_num⟩ (by norm_num) (by decide) (by decide) (by decide) (by decide)
  rw [timeZoneTruncated_23_4] at h
  exact h

/-- Counterexample to C8 as stated: a first call that syncs at uptime 0 leaves
`lastSyncMillis == 0`, and a second call 100 ms later with the same offsets syncs again. -/
theorem setClock_resync_after_uptime_zero :
    (setClock (init 0 unsetTime) (unsetReadings 0)
      7 0 defaultServers).2.1.isSome = true
    ∧ (setClock (setClock (init 0 unsetTime) (unsetReadings 0)
        7 0 defaultServers).1 (unsetReadings 100)
        7 0 defaultServers).2.1.isSome = true := by
  have h1 : (setClock (init 0 unsetTime) (unsetReadings 0)
      7 0 defaultServers).2.1.isSome = true := by
    rw [setClock_configTime]
    decide
  refine ⟨h1, ?_⟩
  have hl := setClock_lastSyncMillis _ _ _ _ _ (Option.isSome_iff_ne_none.1 h1)
  rw [setClock_configTime]
  simp only [syncDue, hl]
  decide

/-- Claim C8, amended. When a `setClock` call performed a platform sync at a non-zero uptime
`t1` and the next call, with the same offsets, is made at an uptime `t2` with
`t2 - t1 < 5000` (as 32-bit unsigned difference), the second call performs no platform
sync, whatever the platform clock reads. -/
theorem setClock_rate_limited (self : MB_Time) (env1 env2 : Readings)
    (gmtOffset daylightOffset : ℚ) (servers1 servers2 : List Char)
    (hsync : (setClock self env1 gmtOffset daylightOffset servers1).2.1 ≠ none)
    (ht1 : env1.millisSync % 4294967296 ≠ 0)
    (hdt : ((env2.millisGate : Int) - (env1.millisSync : Int)) % 4294967296 < 5000) :
    (setClock (setClock self env1 gmtOffset daylightOffset servers1).1 env2
      gmtOffset daylightOffset servers2).2.1 = none := by
  have hl := setClock_lastSyncMillis self env1 gmtOffset daylightOffset servers1 hsync
  have hdue := setClock_configTime (setClock self env1 gmtOffset daylightOffset servers1).1
    env2 gmtOffset daylightOffset servers2
  rw [syncDue_false_of_recent _ _ _ (by simpa [hl] using ht1)
    (by simp only [hl]; omega)] at hdue
  simpa using hdue

/-- Witness of the amended C8: a sync at uptime 1000 and a second call at uptime 5999. -/
theorem setClock_rate_limited_witness :
    (setClock (setClock (init 0 unsetTime) (unsetReadings 1000)
      7 0 defaultServers).1 (unsetReadings 5999)
      7 0 defaultServers).2.1 = none :=
  setClock_rate_limited (init 0 unsetTime) (unsetReadings 1000)
    (unsetReadings 5999) 7 0 defaultServers defaultServers
    (by
      rw [Ne, ← Option.not_isSome_iff_eq_none, setClock_configTime]
      decide)
    (by decide) (by decide)

/-- Counterexample to C9 as stated: after a sync at uptime 1000 with offsets (7, 0), a call at
uptime 2000 with offsets (8, 0) performs no platform sync. -/
theorem setClock_changed_offsets_not_synced :
    (setClock (init 0 unsetTime)
      (unsetReadings 1000) 7 0 defaultServers).2.1.isSome = true
    ∧ (8 : ℚ) ≠ 7
    ∧ (setClock (setClock (init 0 unsetTime)
        (unsetReadings 1000) 7 0 defaultServers).1
        (unsetReadings 2000) 8 0 defaultServers).2.1 = none := by
  have h1 : (setClock (init 0 unsetTime)
      (unsetReadings 1000) 7 0 defaultServers).2.1.isSome = true := by
    rw [setClock_configTime]
    decide
  refine ⟨h1, by norm_num, ?_⟩
  have hl := setClock_lastSyncMillis _ _ _ _ _ (Option.isSome_iff_ne_none.1 h1)
  rw [← Option.not_isSome_iff_eq_none, setClock_configTime]
  simp only [syncDue, hl]
  decide

/-- Claim C9, amended. A `setClock` call made within 5000 ms of uptime after a sync attempt
recorded at a non-zero uptime performs no platform sync, whatever offsets it is given; it
records the offsets in `TZ` and `DST_MN`. -/
theorem setClock_no_sync_within_window (self : MB_Time) (env : Readings)
    (gmtOffset daylightOffset : ℚ) (servers : List Char)
    (hprev : self.lastSyncMillis ≠ 0)
    (hdt : ((env.millisGate : Int) - (self.lastSyncMillis : Int)) % 4294967296 ≤ 5000) :
    (setClock self env gmtOffset daylightOffset servers).2.1 = none
      ∧ (setClock self env gmtOffset daylightOffset servers).1.TZ = gmtOffset
      ∧ (setClock self env gmtOffset daylightOffset servers).1.DST_MN = daylightOffset := by
  have hdue := setClock_configTime self env gmtOffset daylightOffset servers
  rw [syncDue_false_of_recent
    { self with TZ := gmtOffset, DST_MN := daylightOffset, now := env.time }
    env.millisGate false hprev hdt] at hdue
  exact ⟨by simpa using hdue, setClock_offsets self env gmtOffset daylightOffset servers⟩

/-- Witness of the amended C9: offsets changed from 7 to 8, 1000 ms after the last sync. -/
theorem setClock_no_sync_within_window_witness :
    (setClock { init 0 unsetTime with TZ := 7, lastSyncMillis := 1000 }
        (unsetReadings 2000) 8 0 defaultServers).2.1 = none
    ∧ (setClock { init 0 unsetTime with TZ := 7, lastSyncMillis := 1000 }
        (unsetReadings 2000) 8 0 defaultServers).1.TZ = 8
    ∧ (setClock { init 0 unsetTime with TZ := 7, lastSyncMillis := 1000 }
        (unsetReadings 2000) 8 0 defaultServers).1.DST_MN = 0 :=
  setClock_no_sync_within_window
    { init 0 unsetTime with TZ := 7, lastSyncMillis := 1000 }
    (unsetReadings 2000) 8 0 defaultServers
    (by decide) (by decide)

/-- Claim C10. `clockReady()` holds the platform time it re-read and returns whether that epoch
is above 1577836800; `setClock` holds the time read after its sync attempt, or the time read
on entry when the attempt is skipped, and returns the same predicate of the epoch it holds. -/
theorem clockReady_iff_after_sentinel (self : MB_Time) (env : Readings)
    (gmtOffset daylightOffset : ℚ) (servers : List Char) (time : Int) :
    (clockReady self time).1.now = time
    ∧ (clockReady self time).2 = decide (time > 1577836800)
    ∧ (setClock self env gmtOffset daylightOffset servers).1.now
        = (if (setClock self env gmtOffset daylightOffset servers).2.1.isSome
            then env.timeAfterSync else env.time)
    ∧ (setClock self env gmtOffset daylightOffset servers).2.2
        = decide ((setClock self env gmtOffset daylightOffset servers).1.now > 1577836800) := by
  refine ⟨?_, ?_, setClock_now self env gmtOffset daylightOffset servers,
    setClock_result self env gmtOffset daylightOffset servers⟩
  · simp only [clockReady]
    split <;> simp [clearServers]
  · simp only [clockReady]
    split <;> simp_all [clearServers, ESP_TIME_DEFAULT_TS]

/-- Claim C11. For every string and delimiter, `splitToken` appends to `tk` exactly the tokens of
the string: its segments between the delimiters (their concatenation with the delimiter
gives the string back, and no segment contains the delimiter), each trimmed, those left
empty dropped, in their order. Hence no token is empty and the empty string gives none. -/
theorem splitToken_eq_tokens (str : List Char) (tk : List (List Char)) (delim : Char) :
    splitToken str tk delim = tk ++ tokens delim str
    ∧ List.intercalate [delim] (segments delim str) = str
    ∧ (∀ seg ∈ segments delim str, delim ∉ seg)
    ∧ (∀ t ∈ tokens delim str, t ≠ [])
    ∧ splitToken [] tk delim = tk := by
  refine ⟨splitToken_eq str tk delim, segments_intercalate delim str,
    segments_not_mem delim str, tokens_ne_nil delim str, ?_⟩
  rw [splitToken_eq, tokens_nil, List.append_nil]

/-- Claim C12. With the platform conversions taken as UTC, the break-down of
`getTimestamp(year, mon, date, hour, mins, sec)` gives back the year, month, day, hour,
minute and second, for every valid calendar input (any year, so also those from 1970). -/
theorem getTimestamp_calendar_round_trip (year mon date hour mins sec : Nat)
    (hv : ValidDate year mon date) (hh : hour < 24) (hm : mins < 60) (hs : sec < 60) :
    (gmtime (getTimestampYMD year mon date hour mins sec)).tm_year + 1900 = year
    ∧ (gmtime (getTimestampYMD year mon date hour mins sec)).tm_mon + 1 = mon
    ∧ (gmtime (getTimestampYMD year mon date hour mins sec)).tm_mday = date
    ∧ (gmtime (getTimestampYMD year mon date hour mins sec)).tm_hour = hour
    ∧ (gmtime (getTimestampYMD year mon date hour mins sec)).tm_min = mins
    ∧ (gmtime (getTimestampYMD year mon date hour mins sec)).tm_sec = sec := by
  rw [gmtime_getTimestampYMD year mon date hour mins sec hv hh hm hs]
  refine ⟨?_, ?_, rfl, rfl, rfl, rfl⟩
  · show (year : Int) - 1900 + 1900 = year
    omega
  · show (mon : Int) - 1 + 1 = mon
    omega

/-- Witness of C12: 2022-05-02T00:30:00 is 1651451400 and breaks down to the same fields. -/
theorem getTimestamp_calendar_round_trip_witness :
    getTimestampYMD 2022 5 2 0 30 0 = 1651451400
    ∧ (gmtime 1651451400).tm_year + 1900 = 2022
    ∧ (gmtime 1651451400).tm_mon + 1 = 5
    ∧ (gmtime 1651451400).tm_mday = 2
    ∧ (gmtime 1651451400).tm_hour = 0
    ∧ (gmtime 1651451400).tm_min = 30
    ∧ (gmtime 1651451400).tm_sec = 0 :=
  ⟨by decide, getTimestamp_calendar_round_trip 2022 5 2 0 30 0 (by decide) (by decide)
    (by decide) (by decide)⟩

/-- Claim C13. For a string with at least 5 tokens: when the token at the year position has
exactly 2 characters, `getTimestamp` returns the same value as for the string in which that
token is replaced by "20" followed by it; a year token of any other length is read by
`atoi` as written. Both for every value of `gmt`. -/
theorem getTimestamp_two_digit_year (s d m y t z : List Char) (gmt : Bool)
    (h5 : 5 ≤ (splitToken s [] ' ').length)
    (hd : fieldToken s 1 = some d) (hm : fieldToken s 2 = some m)
    (hy : fieldToken s 3 = some y) (ht : fieldToken s 4 = some t)
    (hz : fieldToken s 5 = some z) :
    (y.length = 2 → ∀ s', ReplacesField s s' 3 ("20".toList ++ y) →
        getTimestamp s gmt = getTimestamp s' gmt)
    ∧ (y.length ≠ 2 → getTimestamp s gmt
        = some (fromFields (atoi d) (monthIndex m) (atoi y) (timeFields t) z gmt)) := by
  obtain ⟨d0, m0, y0, t0, z0, e1, e2, e3, e4, e5, hs, _, _, hry, _⟩ := getTimestamp_fields s h5
  rw [hd] at e1; rw [hm] at e2; rw [hy] at e3; rw [ht] at e4; rw [hz] at e5
  cases e1; cases e2; cases e3; cases e4; cases e5
  constructor
  · intro h2 s' hs'
    rw [hs gmt, hry s' gmt _ hs', fromTokens_eq_fromFields, fromTokens_eq_fromFields,
      yearValue_prepend y h2]
  · intro h2
    rw [hs gmt, fromTokens_eq_fromFields, yearValue_of_length_ne y h2]

/-- Witness of C13: "02 May 22 00:30:00 +0500" against "02 May 2022 00:30:00 +0500", for both
values of `gmt`. -/
theorem getTimestamp_two_digit_year_witness :
    getTimestamp "02 May 22 00:30:00 +0500".toList true
        = getTimestamp "02 May 2022 00:30:00 +0500".toList true
    ∧ getTimestamp "02 May 22 00:30:00 +0500".toList false
        = getTimestamp "02 May 2022 00:30:00 +0500".toList false :=
  ⟨(getTimestamp_two_digit_year "02 May 22 00:30:00 +0500".toList "02".toList "May".toList
      "22".toList "00:30:00".toList "+0500".toList true (by decide) (by decide) (by decide)
      (by decide) (by decide) (by decide)).1 (by decide)
      "02 May 2022 00:30:00 +0500".toList (by decide),
    (getTimestamp_two_digit_year "02 May 22 00:30:00 +0500".toList "02".toList "May".toList
      "22".toList "00:30:00".toList "+0500".toList false (by decide) (by decide) (by decide)
      (by decide) (by decide) (by decide)).1 (by decide)
      "02 May 2022 00:30:00 +0500".toList (by decide)⟩

/-- Counterexample to C14 as stated: with the clock not set, a call made exactly 5000 ms after
the last sync performs no sync; and a first call that reads the epoch 1577836800 performs no
sync and returns false. -/
theorem setClock_gate_strict :
    (5000 : Int) ≤ ((6000 : Int) - 1000) % 4294967296
    ∧ (setClock (setClock (init 0 unsetTime) (unsetReadings 1000) 7 0 defaultServers).1
        (unsetReadings 6000) 7 0 defaultServers).2.1 = none
    ∧ (setClock (init 0 unsetTime)
        { time := 1577836800, millisGate := 1000, millisSync := 1000,
          timeAfterSync := 1577836800, millisDiff := 1000, localTime := unsetTime }
        7 0 defaultServers).2 = (none, false) := by
  have h1 : (setClock (init 0 unsetTime) (unsetReadings 1000) 7 0 defaultServers).2.1.isSome
      = true := by
    rw [setClock_configTime]
    decide
  have hl := setClock_lastSyncMillis _ _ _ _ _ (Option.isSome_iff_ne_none.1 h1)
  refine ⟨by decide, ?_, ?_⟩
  · rw [← Option.not_isSome_iff_eq_none, setClock_configTime]
    simp only [syncDue, hl]
    decide
  · have h2 : (setClock (init 0 unsetTime)
        { time := 1577836800, millisGate := 1000, millisSync := 1000,
          timeAfterSync := 1577836800, millisDiff := 1000, localTime := unsetTime }
        7 0 defaultServers).2.1.isSome = false := by
      rw [setClock_configTime]
      decide
    have h3 := setClock_result (init 0 unsetTime)
        { time := 1577836800, millisGate := 1000, millisSync := 1000,
          timeAfterSync := 1577836800, millisDiff := 1000, localTime := unsetTime }
        7 0 defaultServers
    have h4 := setClock_now (init 0 unsetTime)
        { time := 1577836800, millisGate := 1000, millisSync := 1000,
          timeAfterSync := 1577836800, millisDiff := 1000, localTime := unsetTime }
        7 0 defaultServers
    rw [h2] at h4
    simp only [Bool.false_eq_true, if_false] at h4
    rw [h4] at h3
    have h5 : decide ((1577836800 : Int) > ESP_TIME_DEFAULT_TS) = false := by decide
    rw [h5] at h3
    exact Prod.ext (Option.not_isSome_iff_eq_none.1 (by rw [h2]; decide)) h3

/-- Claim C14, amended. A `setClock` call performs a platform sync only if more than 5000 ms
have elapsed on the 32-bit uptime counter since `lastSyncMillis`, or `lastSyncMillis` is 0;
when that holds and the epoch read on entry is below 1577836800 it performs one; and a call
whose offsets are those already stored performs one if and only if both hold. -/
theorem setClock_sync_gate (self : MB_Time) (env : Readings) (gmtOffset daylightOffset : ℚ)
    (servers : List Char) :
    ((setClock self env gmtOffset daylightOffset servers).2.1.isSome = true
        → Elapsed self env.millisGate)
    ∧ (Elapsed self env.millisGate → env.time < 1577836800
        → (setClock self env gmtOffset daylightOffset servers).2.1.isSome = true)
    ∧ (gmtOffset = self.TZ → daylightOffset = self.DST_MN →
        ((setClock self env gmtOffset daylightOffset servers).2.1.isSome = true
          ↔ Elapsed self env.millisGate ∧ env.time < 1577836800)) := by
  have h := setClock_configTime_iff self env gmtOffset daylightOffset servers
  exact ⟨fun ha => (h.1 ha).1, fun he ht => h.2 ⟨he, ht⟩, fun _ _ => h⟩

/-- Claim C16. For a string with at least 5 tokens: the entries of `mb_months` are pairwise
different; when the token at the month position equals entry `i`, the month used by
`getTimestamp` is `i`; when it equals no entry, the result is that of the string with the
month token replaced by "Jan". -/
theorem getTimestamp_month_matching (s d m y t z : List Char) (gmt : Bool)
    (h5 : 5 ≤ (splitToken s [] ' ').length)
    (hd : fieldToken s 1 = some d) (hm : fieldToken s 2 = some m)
    (hy : fieldToken s 3 = some y) (ht : fieldToken s 4 = some t)
    (hz : fieldToken s 5 = some z) :
    (∀ i : Nat, i < 12 → ∀ j : Nat, j < 12 →
        mb_months.getD i [] = mb_months.getD j [] → i = j)
    ∧ (∀ i : Nat, i < 12 → mb_months.getD i [] = m →
        getTimestamp s gmt
          = some (fromFields (atoi d) (i : Int) (yearValue y) (timeFields t) z gmt))
    ∧ ((∀ i : Nat, i < 12 → mb_months.getD i [] ≠ m) →
        ∀ s', ReplacesField s s' 2 "Jan".toList → getTimestamp s gmt = getTimestamp s' gmt) := by
  obtain ⟨d0, m0, y0, t0, z0, e1, e2, e3, e4, e5, hs, _, hrm, _, _⟩ := getTimestamp_fields s h5
  rw [hd] at e1; rw [hm] at e2; rw [hy] at e3; rw [ht] at e4; rw [hz] at e5
  cases e1; cases e2; cases e3; cases e4; cases e5
  refine ⟨monthIndex_unique, ?_, ?_⟩
  · intro i hi hmi
    rw [hs gmt, fromTokens_eq_fromFields, monthIndex_of_eq m i hi hmi]
  · intro hno s' hs'
    rw [hs gmt, hrm s' gmt _ hs', fromTokens_eq_fromFields, fromTokens_eq_fromFields,
      monthIndex_of_no_match m hno, monthIndex_of_eq "Jan".toList 0 (by decide) rfl]
    rfl

/-- Witness of C16: the month token "may" is read as "Jan". -/
theorem getTimestamp_month_matching_witness :
    getTimestamp "02 may 2022 00:30:00 +0000".toList true
        = getTimestamp "02 Jan 2022 00:30:00 +0000".toList true
    ∧ getTimestamp "02 Jan 2022 00:30:00 +0000".toList true = some 1641083400 :=
  ⟨(getTimestamp_month_matching "02 may 2022 00:30:00 +0000".toList "02".toList "may".toList
    "2022".toList "00:30:00".toList "+0000".toList true (by decide) (by decide) (by decide)
    (by decide) (by decide) (by decide)).2.2 (by decide)
    "02 Jan 2022 00:30:00 +0000".toList (by decide), by decide⟩

/-- Claim C17. For a string with at least 5 tokens: when the token at the time position splits
on `:` into exactly 3 parts, hour, minute and second are the `atoi` values of the parts;
otherwise they stay 0 and the result is that of the string with the time token replaced by
"00:00:00". -/
theorem getTimestamp_time_of_day (s d m y t z : List Char) (gmt : Bool)
    (h5 : 5 ≤ (splitToken s [] ' ').length)
    (hd : fieldToken s 1 = some d) (hm : fieldToken s 2 = some m)
    (hy : fieldToken s 3 = some y) (ht : fieldToken s 4 = some t)
    (hz : fieldToken s 5 = some z) :
    (∀ a b c, splitToken t [] ':' = [a, b, c] →
        getTimestamp s gmt
          = some (fromFields (atoi d) (monthIndex m) (yearValue y) (atoi a, atoi b, atoi c)
              z gmt))
    ∧ ((splitToken t [] ':').length ≠ 3 →
        getTimestamp s gmt
            = some (fromFields (atoi d) (monthIndex m) (yearValue y) (0, 0, 0) z gmt)
          ∧ ∀ s', ReplacesField s s' 4 "00:00:00".toList →
              getTimestamp s gmt = getTimestamp s' gmt) := by
  obtain ⟨d0, m0, y0, t0, z0, e1, e2, e3, e4, e5, hs, _, _, _, hrt⟩ := getTimestamp_fields s h5
  rw [hd] at e1; rw [hm] at e2; rw [hy] at e3; rw [ht] at e4; rw [hz] at e5
  cases e1; cases e2; cases e3; cases e4; cases e5
  constructor
  · intro a b c habc
    rw [hs gmt, fromTokens_eq_fromFields, timeFields_of_eq t a b c habc]
  · intro hne
    have h0 : timeFields "00:00:00".toList = (0, 0, 0) := by decide
    refine ⟨by rw [hs gmt, fromTokens_eq_fromFields, timeFields_of_length_ne t hne], ?_⟩
    intro s' hs'
    rw [hs gmt, hrt s' gmt _ hs', fromTokens_eq_fromFields, fromTokens_eq_fromFields,
      timeFields_of_length_ne t hne, h0]

/-- Witness of C17: the time token "00:30" is read as "00:00:00". -/
theorem getTimestamp_time_of_day_witness :
    getTimestamp "02 May 2022 00:30 +0000".toList false
        = getTimestamp "02 May 2022 00:00:00 +0000".toList false
    ∧ getTimestamp "02 May 2022 00:00:00 +0000".toList false = some 1651449600 :=
  ⟨((getTimestamp_time_of_day "02 May 2022 00:30 +0000".toList "02".toList "May".toList
    "2022".toList "00:30".toList "+0000".toList false (by decide) (by decide) (by decide)
    (by decide) (by decide) (by decide)).2 (by decide)).2
    "02 May 2022 00:00:00 +0000".toList (by decide), by decide⟩

/-- Claim C18. After any sequence of calls on a constructed object, `_sv1`, `_sv2` and `_sv3`
are empty whenever `_clockReady` is true; a `setClock` call that returns false leaves no
server string that was not empty empty, and a `clockReady` call that returns false leaves
the three strings as they were. -/
theorem run_ready_servers_cleared (now : Int) (timeinfo : tm) (calls : List Call) :
    ((run (init now timeinfo) calls)._clockReady = true →
        (run (init now timeinfo) calls)._sv1 = [] ∧ (run (init now timeinfo) calls)._sv2 = []
          ∧ (run (init now timeinfo) calls)._sv3 = [])
    ∧ (∀ (self : MB_Time) (env : Readings) (gmtOffset daylightOffset : ℚ) (servers : List Char),
        (setClock self env gmtOffset daylightOffset servers).2.2 = false →
          (self._sv1 ≠ [] → (setClock self env gmtOffset daylightOffset servers).1._sv1 ≠ [])
          ∧ (self._sv2 ≠ [] → (setClock self env gmtOffset daylightOffset servers).1._sv2 ≠ [])
          ∧ (self._sv3 ≠ [] → (setClock self env gmtOffset daylightOffset servers).1._sv3 ≠ []))
    ∧ (∀ (self : MB_Time) (time : Int), (clockReady self time).2 = false →
          (clockReady self time).1._sv1 = self._sv1 ∧ (clockReady self time).1._sv2 = self._sv2
          ∧ (clockReady self time).1._sv3 = self._sv3) := by
  refine ⟨?_, setClock_keeps, clockReady_keeps⟩
  exact run_readyCleared calls (init now timeinfo) (by intro h; cases h)

/-- Claim C19. For every string and value of `gmt`, no `operator[]` of `getTimestamp` reads
outside its token vector (the function returns a value), the character reads of the time
zone block are all inside the token, and they are made only for a token of 5 characters. -/
theorem getTimestamp_index_safe (timeString : List Char) (gmt : Bool) :
    (∃ ts, getTimestamp timeString gmt = some ts)
    ∧ (∀ ts tz, adjustTimeZoneChecked ts tz gmt = some (adjustTimeZone ts tz gmt))
    ∧ (∀ tz, ∀ i ∈ timeZoneReads tz gmt, tz.length = 5 ∧ i < tz.length) := by
  refine ⟨getTimestamp_isSome timeString gmt, fun ts tz => adjustTimeZoneChecked_eq ts tz gmt,
    ?_⟩
  intro tz i hi
  unfold timeZoneReads at hi
  split at hi
  · rename_i h
    simp only [Bool.and_eq_true, decide_eq_true_eq] at h
    refine ⟨h.1, ?_⟩
    rw [h.1]
    simp only [List.mem_cons, List.mem_singleton, List.not_mem_nil, or_false] at hi
    omega
  · simp at hi

/-- Claim C20. With the platform break-down and `mktime` taken as UTC, for every epoch `t ≥ 0`
in a year of at most four digits and every offset `TZ` (so every non-negative one), the
string of `getDateTimeString` for the break-down of `t` has exactly 6 tokens and
`getTimestamp(string, false)` returns `t`. -/
theorem getTimestamp_getDateTimeString (self : MB_Time) (t : Int) (ht : 0 ≤ t)
    (hy : (gmtime t).tm_year + 1900 ≤ 9999) :
    ∃ s, (getDateTimeString self t (gmtime t)).2 = some s
      ∧ (splitToken s [] ' ').length = 6
      ∧ getTimestamp s false = some t := by
  have hr := gmtime_ranges t ht
  have hmk := mktime_gmtime t
  have hymd := getTimestampYMD_tm (gmtime t)
  rw [hmk] at hymd
  obtain ⟨z, hz, hzns, hz0⟩ := timeZoneText_token self.TZ
  generalize gmtime t = x at hr hy hymd ⊢
  obtain ⟨sec, min, hour, mday, mon, year, wday⟩ := x
  simp only at hr hy hymd
  obtain ⟨hw0, hw7, hm0, hm12, hd1, hh0, hh24, hmi0, hmi60, hs0, hs60, hy1970⟩ := hr
  obtain ⟨wd, rfl⟩ := Int.eq_ofNat_of_zero_le hw0
  obtain ⟨mo, rfl⟩ := Int.eq_ofNat_of_zero_le hm0
  obtain ⟨D, rfl⟩ := Int.eq_ofNat_of_zero_le (show 0 ≤ mday by omega)
  obtain ⟨H, rfl⟩ := Int.eq_ofNat_of_zero_le hh0
  obtain ⟨M, rfl⟩ := Int.eq_ofNat_of_zero_le hmi0
  obtain ⟨S, rfl⟩ := Int.eq_ofNat_of_zero_le hs0
  obtain ⟨Y, hY⟩ := Int.eq_ofNat_of_zero_le (show 0 ≤ year + 1900 by omega)
  have hwd : tokenAt mb_sdow (wd : Int) = some (mb_sdow.getD wd []) :=
    tokenAt_getD mb_sdow wd (by have : mb_sdow.length = 7 := rfl; omega)
  have hmo : tokenAt mb_months (mo : Int) = some (mb_months.getD mo []) :=
    tokenAt_getD mb_months mo (by have : mb_months.length = 12 := rfl; omega)
  have hp := dateTimeString_parse (mb_sdow.getD wd []) (mb_months.getD mo []) z D Y H M S mo
    (noSpace_sdow wd (by omega)) rfl (by omega) (by omega) (by omega) (by omega) (by omega)
    (by omega) hzns hz0
  rw [hY] at hymd
  have hstr : (getDateTimeString self t
        { tm_sec := S, tm_min := M, tm_hour := H, tm_mday := D, tm_mon := mo, tm_year := year,
          tm_wday := wd }).2
      = some (mb_sdow.getD wd [] ++ [','] ++ [' '] ++ intText (D : Int) ++ [' ']
          ++ mb_months.getD mo [] ++ [' '] ++ intText (Y : Int)
          ++ [' '] ++ (if (H : Int) < 10 then intText 0 else []) ++ intText (H : Int)
          ++ [':'] ++ (if (M : Int) < 10 then intText 0 else []) ++ intText (M : Int)
          ++ [':'] ++ (if (S : Int) < 10 then intText 0 else []) ++ intText (S : Int)
          ++ (' ' :: z)) := by
    simp only [getDateTimeString, getTime, hwd, hmo, hY, hz]
    rfl
  exact ⟨_, hstr, by rw [hp.1]; rfl, by rw [hp.2]; exact congrArg some hymd⟩

/-- Witness of C20: the epoch 1651451400 with the offset 5.75. -/
theorem getTimestamp_getDateTimeString_witness :
    gmtime 1651451400 = sampleTime
    ∧ ∃ s, (getDateTimeString { init 0 unsetTime with TZ := 23 / 4 } 1651451400
          (gmtime 1651451400)).2 = some s
        ∧ (splitToken s [] ' ').length = 6
        ∧ getTimestamp s false = some 1651451400 :=
  ⟨by decide, getTimestamp_getDateTimeString { init 0 unsetTime with TZ := 23 / 4 } 1651451400
    (by decide) (by decide)⟩

end MB_Time
